import Mathlib

/-!
Verification of the fun_time_backend room/game server.

The development shallowly embeds the server's per-room game logic:
the tic-tac-toe winner computation, the connect4 gravity drop, the
join_room seat assignment, the disconnect teardown, the chess_move
gating, and the carrom shot simulator (discrete integration, pocket
capture, queen cover, foul and turn resolution).  Numbers are embedded
as exact rationals; the transcendental functions used by the carrom
handler (Math.cos, Math.sin, Math.sqrt) are abstracted as an arbitrary
fixed interpretation, so every theorem holds for any deterministic
choice of those functions.
-/

namespace FunTime

/-! ## Basic room types -/

inductive ChessColor
  | w
  | b
deriving DecidableEq, Repr

structure RoomPlayer where
  id : String
  username : String
  usernameNormalized : String
  color : Option ChessColor
  ludoIndex : Option Int
deriving DecidableEq, Repr

/-- Normalization applied to usernames by join_room:
`username.trim().toLowerCase()`, written over the character list
(whitespace stripped from both ends, then ASCII lower-casing) so that it
evaluates by kernel reduction. -/
def normalizeUsername (u : String) : String :=
  ⟨((u.data.dropWhile Char.isWhitespace).reverse.dropWhile
      Char.isWhitespace).reverse.map Char.toLower⟩

/-! ## Tic-tac-toe (computeTttWinner) -/

inductive TttSym
  | X
  | O
deriving DecidableEq, Repr

inductive TttWinner
  | X
  | O
  | draw
deriving DecidableEq, Repr

/-- The winner value corresponding to a symbol. -/
def TttSym.winner : TttSym → TttWinner
  | .X => .X
  | .O => .O

abbrev TttCell := Option TttSym

structure TttState where
  board : List TttCell
  next : Option TttSym
  winner : Option TttWinner
deriving DecidableEq, Repr

/-- The 8 fixed lines scanned by computeTttWinner, in source order. -/
def tttLines : List (Nat × Nat × Nat) :=
  [(0, 1, 2), (3, 4, 5), (6, 7, 8), (0, 3, 6), (1, 4, 7), (2, 5, 8), (0, 4, 8), (2, 4, 6)]

/-- Cell access `board[i]`; out of range reads as null. -/
def cellAt (board : List TttCell) (i : Nat) : TttCell :=
  board.getD i none

/-- The line scan of computeTttWinner: return the owner of the first
line whose three cells are equal and non-null. -/
def lineScan (board : List TttCell) : List (Nat × Nat × Nat) → Option TttSym
  | [] => none
  | (a, b, c) :: rest =>
    match cellAt board a with
    | some s =>
      if cellAt board b = some s ∧ cellAt board c = some s then some s
      else lineScan board rest
    | none => lineScan board rest

/-- computeTttWinner from the source: first uniform line wins, else
draw when every cell is filled, else null. -/
def computeTttWinner (board : List TttCell) : Option TttWinner :=
  match lineScan board tttLines with
  | some s => some s.winner
  | none => if board.all (fun c => c.isSome) then some TttWinner.draw else none

/-- A line is uniform and non-empty on the board. -/
def LineUniform (board : List TttCell) (l : Nat × Nat × Nat) : Prop :=
  ∃ s : TttSym, cellAt board l.1 = some s ∧ cellAt board l.2.1 = some s ∧ cellAt board l.2.2 = some s

instance (board : List TttCell) (l : Nat × Nat × Nat) : Decidable (LineUniform board l) := by
  unfold LineUniform
  infer_instance

lemma lineScan_some {board : List TttCell} {ls : List (Nat × Nat × Nat)} {s : TttSym}
    (h : lineScan board ls = some s) : ∃ l ∈ ls, LineUniform board l := by
  induction ls with
  | nil => simp [lineScan] at h
  | cons hd tl ih =>
    obtain ⟨a, b, c⟩ := hd
    rw [lineScan] at h
    rcases hcell : cellAt board a with _ | t
    · rw [hcell] at h
      obtain ⟨l, hl, hu⟩ := ih h
      exact ⟨l, List.mem_cons_of_mem _ hl, hu⟩
    · rw [hcell] at h
      dsimp only at h
      by_cases hbc : cellAt board b = some t ∧ cellAt board c = some t
      · exact ⟨(a, b, c), List.mem_cons_self _ _, ⟨t, hcell, hbc.1, hbc.2⟩⟩
      · rw [if_neg hbc] at h
        obtain ⟨l, hl, hu⟩ := ih h
        exact ⟨l, List.mem_cons_of_mem _ hl, hu⟩

lemma lineScan_none {board : List TttCell} {ls : List (Nat × Nat × Nat)}
    (h : lineScan board ls = none) : ∀ l ∈ ls, ¬ LineUniform board l := by
  induction ls with
  | nil => simp
  | cons hd tl ih =>
    obtain ⟨a, b, c⟩ := hd
    rw [lineScan] at h
    intro l hl
    rcases hcell : cellAt board a with _ | t
    · rw [hcell] at h
      rcases List.mem_cons.mp hl with rfl | hmem
      · rintro ⟨s, hs, _, _⟩
        rw [hcell] at hs
        exact Option.noConfusion hs
      · exact ih h l hmem
    · rw [hcell] at h
      dsimp only at h
      by_cases hbc : cellAt board b = some t ∧ cellAt board c = some t
      · rw [if_pos hbc] at h
        exact Option.noConfusion h
      · rw [if_neg hbc] at h
        rcases List.mem_cons.mp hl with rfl | hmem
        · rintro ⟨s, hs, hb, hc⟩
          rw [hcell] at hs
          obtain rfl := Option.some_injective _ hs.symm
          exact hbc ⟨hb, hc⟩
        · exact ih h l hmem

lemma lineScan_isSome_of_uniform {board : List TttCell} {ls : List (Nat × Nat × Nat)}
    (h : ∃ l ∈ ls, LineUniform board l) : (lineScan board ls).isSome = true := by
  rcases hscan : lineScan board ls with _ | s
  · obtain ⟨l, hl, hu⟩ := h
    exact absurd hu (lineScan_none hscan l hl)
  · rfl

lemma tttFull_iff {board : List TttCell} (h : board.length = 9) :
    board.all (fun c => c.isSome) = true ↔ ∀ i < 9, (cellAt board i).isSome = true := by
  rw [List.all_eq_true]
  constructor
  · intro hall i hi
    have hi' : i < board.length := by omega
    rw [cellAt, List.getD_eq_getElem _ _ hi']
    exact hall _ (List.getElem_mem hi')
  · intro hall c hc
    obtain ⟨i, hi, rfl⟩ := List.mem_iff_getElem.mp hc
    have := hall i (by omega)
    rwa [cellAt, List.getD_eq_getElem _ _ hi] at this

/-- Claim C8: on a 3-by-3 board, computeTttWinner returns a symbol (X or O)
iff one of the 8 fixed lines holds three equal non-empty symbols, returns
draw iff no such line exists and all 9 cells are filled, and returns null
otherwise. -/
theorem computeTttWinner_spec (board : List TttCell) (h : board.length = 9) :
    ((∃ s : TttSym, computeTttWinner board = some s.winner) ↔
      ∃ l ∈ tttLines, LineUniform board l) ∧
    (computeTttWinner board = some TttWinner.draw ↔
      (¬ ∃ l ∈ tttLines, LineUniform board l) ∧ ∀ i < 9, (cellAt board i).isSome = true) ∧
    (computeTttWinner board = none ↔
      (¬ ∃ l ∈ tttLines, LineUniform board l) ∧ ¬ ∀ i < 9, (cellAt board i).isSome = true) := by
  rcases hscan : lineScan board tttLines with _ | s
  · have hnoline : ¬ ∃ l ∈ tttLines, LineUniform board l := by
      rintro ⟨l, hl, hu⟩
      exact lineScan_none hscan l hl hu
    by_cases hfull : board.all (fun c => c.isSome) = true
    · have hres : computeTttWinner board = some TttWinner.draw := by
        rw [computeTttWinner, hscan]
        simp [hfull]
      refine ⟨?_, ?_, ?_⟩
      · refine iff_of_false ?_ hnoline
        rintro ⟨s, hs⟩
        rw [hres] at hs
        cases s <;> simp [TttSym.winner] at hs
      · exact iff_of_true hres ⟨hnoline, (tttFull_iff h).mp hfull⟩
      · refine iff_of_false (by rw [hres]; simp) ?_
        rintro ⟨-, hnf⟩
        exact hnf ((tttFull_iff h).mp hfull)
    · have hres : computeTttWinner board = none := by
        rw [computeTttWinner, hscan]
        simp [hfull]
      refine ⟨?_, ?_, ?_⟩
      · refine iff_of_false ?_ hnoline
        rintro ⟨s, hs⟩
        rw [hres] at hs
        exact Option.noConfusion hs
      · refine iff_of_false (by rw [hres]; simp) ?_
        rintro ⟨-, hf⟩
        exact hfull ((tttFull_iff h).mpr hf)
      · exact iff_of_true hres ⟨hnoline, fun hf => hfull ((tttFull_iff h).mpr hf)⟩
  · have hline : ∃ l ∈ tttLines, LineUniform board l := lineScan_some hscan
    have hres : computeTttWinner board = some s.winner := by
      rw [computeTttWinner, hscan]
    refine ⟨iff_of_true ⟨s, hres⟩ hline, ?_, ?_⟩
    · refine iff_of_false ?_ (fun hc => hc.1 hline)
      rw [hres]
      cases s <;> simp [TttSym.winner]
    · refine iff_of_false (by rw [hres]; simp) (fun hc => hc.1 hline)

/-- Witness for C8 at a concrete board: the all-X board has a winning line. -/
theorem computeTttWinner_spec_witness :
    ∃ s : TttSym, computeTttWinner (List.replicate 9 (some TttSym.X)) = some s.winner :=
  (computeTttWinner_spec (List.replicate 9 (some TttSym.X)) (by decide)).1.mpr (by decide)

/-! ## Connect4 (connect4_move drop loop and winner scan) -/

inductive C4Sym
  | R
  | Y
deriving DecidableEq, Repr

def C4Sym.other : C4Sym → C4Sym
  | .R => .Y
  | .Y => .R

inductive C4Winner
  | R
  | Y
  | draw
deriving DecidableEq, Repr

def C4Sym.winner : C4Sym → C4Winner
  | .R => .R
  | .Y => .Y

abbrev C4Cell := Option C4Sym

/-- Connect4 board: 7 columns times 6 rows, column-major, index = col * 6 + row. -/
structure C4State where
  board : List C4Cell
  next : Option C4Sym
  winner : Option C4Winner
deriving DecidableEq, Repr

/-- Bounds-checked cell access of computeC4Winner. -/
def c4Get (board : List C4Cell) (x y : Int) : C4Cell :=
  if 0 ≤ x ∧ x < 7 ∧ 0 ≤ y ∧ y < 6 then board.getD (x * 6 + y).toNat none else none

def c4Directions : List (Int × Int) := [(1, 0), (0, 1), (1, 1), (1, -1)]

/-- The run counter of computeC4Winner: 1 plus the number of consecutive
equal neighbours among the next three steps in direction (dx, dy). -/
def c4RunCount (board : List C4Cell) (cell : C4Sym) (x y dx dy : Int) : Nat :=
  1 + (if c4Get board (x + dx) (y + dy) = some cell then
        1 + (if c4Get board (x + dx * 2) (y + dy * 2) = some cell then
              1 + (if c4Get board (x + dx * 3) (y + dy * 3) = some cell then 1 else 0)
             else 0)
       else 0)

/-- One scan position of computeC4Winner: the cell value when the cell is
occupied and some direction reaches a run of at least 4. -/
def c4CellRun (board : List C4Cell) (x y : Int) : Option C4Sym :=
  match c4Get board x y with
  | none => none
  | some cell =>
    if c4Directions.any (fun d => 4 ≤ c4RunCount board cell x y d.1 d.2) then some cell
    else none

/-- computeC4Winner from the source: scan every occupied cell against
each direction; else draw when full, else null. -/
def computeC4Winner (board : List C4Cell) : Option C4Winner :=
  match (List.range 7).findSome?
      (fun x => (List.range 6).findSome? (fun y => c4CellRun board (x : Int) (y : Int))) with
  | some s => some s.winner
  | none => if board.all (fun c => c.isSome) then some C4Winner.draw else none

/-- The drop loop of connect4_move: scan rows from 0 upward, return the
first row whose cell in the selected column is empty. -/
def dropScan (board : List C4Cell) (col : Nat) : Nat → Nat → Option Nat
  | 0, _ => none
  | fuel + 1, row =>
    if (board.getD (col * 6 + row) none).isNone then some row
    else dropScan board col fuel (row + 1)

def c4DropRow (board : List C4Cell) (col : Nat) : Option Nat :=
  dropScan board col 6 0

/-- The connect4_move handler after identity resolution: turn gating,
gravity drop, winner update. -/
def connect4Move (g : C4State) (sym : C4Sym) (col : Nat) : C4State :=
  if 6 < col then g
  else if g.winner.isSome = true ∨ g.next = none then g
  else if g.next ≠ some sym then g
  else
    match c4DropRow g.board col with
    | none => g
    | some row =>
      let board1 := g.board.set (col * 6 + row) (some sym)
      let w := computeC4Winner board1
      { board := board1, winner := w, next := if w.isSome then none else some sym.other }

/-- Number of occupied cells in a column. -/
def colOccupiedCount (board : List C4Cell) (col : Nat) : Nat :=
  ((List.range 6).filter (fun row => (board.getD (col * 6 + row) none).isSome)).length

lemma dropScan_eq_some {board : List C4Cell} {col : Nat} (fuel : Nat) :
    ∀ (row r : Nat), dropScan board col fuel row = some r ↔
      (row ≤ r ∧ r < row + fuel ∧ (board.getD (col * 6 + r) none).isNone = true ∧
        ∀ k, row ≤ k → k < r → (board.getD (col * 6 + k) none).isSome = true) := by
  induction fuel with
  | zero =>
    intro row r
    rw [dropScan]
    constructor
    · intro hc
      exact Option.noConfusion hc
    · rintro ⟨h1, h2, -⟩
      omega
  | succ fuel ih =>
    intro row r
    rw [dropScan]
    by_cases hrow : (board.getD (col * 6 + row) none).isNone = true
    · rw [if_pos hrow]
      constructor
      · rintro hc
        obtain rfl := Option.some_injective _ hc
        exact ⟨le_refl _, by omega, hrow, fun k hk1 hk2 => absurd (lt_of_le_of_lt hk1 hk2) (lt_irrefl _)⟩
      · rintro ⟨h1, h2, h3, h4⟩
        rcases eq_or_lt_of_le h1 with rfl | hlt
        · rfl
        · have := h4 row (le_refl _) hlt
          rw [Option.isNone_iff_eq_none] at hrow
          rw [hrow] at this
          simp at this
    · rw [if_neg hrow]
      rw [ih (row + 1) r]
      have hsome : (board.getD (col * 6 + row) none).isSome = true := by
        rcases hv : board.getD (col * 6 + row) none with _ | v
        · rw [hv] at hrow
          simp at hrow
        · rfl
      constructor
      · rintro ⟨h1, h2, h3, h4⟩
        refine ⟨by omega, by omega, h3, fun k hk1 hk2 => ?_⟩
        rcases eq_or_lt_of_le hk1 with rfl | hlt
        · exact hsome
        · exact h4 k (by omega) hk2
      · rintro ⟨h1, h2, h3, h4⟩
        have hne : row ≠ r := by
          rintro rfl
          rw [Option.isNone_iff_eq_none] at h3
          rw [h3] at hsome
          simp at hsome
        exact ⟨by omega, by omega, h3, fun k hk1 hk2 => h4 k (by omega) hk2⟩

lemma dropScan_eq_none {board : List C4Cell} {col : Nat} (fuel : Nat) :
    ∀ (row : Nat), dropScan board col fuel row = none ↔
      ∀ k, row ≤ k → k < row + fuel → (board.getD (col * 6 + k) none).isSome = true := by
  induction fuel with
  | zero =>
    intro row
    rw [dropScan]
    constructor
    · intro _ k h1 h2
      omega
    · intro _
      rfl
  | succ fuel ih =>
    intro row
    rw [dropScan]
    by_cases hrow : (board.getD (col * 6 + row) none).isNone = true
    · rw [if_pos hrow]
      constructor
      · intro hc
        exact Option.noConfusion hc
      · intro hall
        have := hall row (le_refl _) (by omega)
        rw [Option.isNone_iff_eq_none] at hrow
        rw [hrow] at this
        simp at this
    · rw [if_neg hrow]
      rw [ih (row + 1)]
      have hsome : (board.getD (col * 6 + row) none).isSome = true := by
        rcases hv : board.getD (col * 6 + row) none with _ | v
        · rw [hv] at hrow
          simp at hrow
        · rfl
      constructor
      · intro hall k hk1 hk2
        rcases eq_or_lt_of_le hk1 with rfl | hlt
        · exact hsome
        · exact hall k (by omega) (by omega)
      · intro hall k hk1 hk2
        exact hall k (by omega) (by omega)

lemma colOccupied_lt_iff (board : List C4Cell) (col : Nat) :
    colOccupiedCount board col < 6 ↔
      ∃ row, row < 6 ∧ (board.getD (col * 6 + row) none).isNone = true := by
  have h6 : (List.range 6).length = 6 := by simp
  rw [colOccupiedCount]
  constructor
  · intro hlt
    by_contra hno
    push_neg at hno
    have hall : ∀ row ∈ List.range 6, (board.getD (col * 6 + row) none).isSome = true := by
      intro row hrow
      have hr6 : row < 6 := List.mem_range.mp hrow
      rcases hv : board.getD (col * 6 + row) none with _ | v
      · exact absurd (by rw [hv]; rfl) (hno row hr6)
      · rfl
    rw [List.filter_eq_self.mpr hall, h6] at hlt
    exact lt_irrefl _ hlt
  · rintro ⟨row, hr6, hempty⟩
    have hlt : ((List.range 6).filter
        (fun row => (board.getD (col * 6 + row) none).isSome)).length < (List.range 6).length := by
      apply List.length_filter_lt_length_iff_exists.mpr
      refine ⟨row, List.mem_range.mpr hr6, ?_⟩
      rw [Option.isNone_iff_eq_none] at hempty
      rw [hempty]
      simp
    omega

/-- Claim C9: with the game in progress and the mover on turn, the move
places the token in the lowest unoccupied row of the selected column iff
the column has fewer than 6 occupied cells; a full column leaves the
whole game state unchanged. -/
theorem connect4_drop_spec (g : C4State) (sym : C4Sym) (col : Nat)
    (hcol : col ≤ 6) (hwin : g.winner = none) (hnext : g.next = some sym) :
    (colOccupiedCount g.board col < 6 →
      ∃ row, row < 6 ∧ (g.board.getD (col * 6 + row) none).isNone = true ∧
        (∀ k, k < row → (g.board.getD (col * 6 + k) none).isSome = true) ∧
        (connect4Move g sym col).board = g.board.set (col * 6 + row) (some sym)) ∧
    (¬ colOccupiedCount g.board col < 6 → connect4Move g sym col = g) := by
  have hgate : connect4Move g sym col =
      match c4DropRow g.board col with
      | none => g
      | some row =>
        let board1 := g.board.set (col * 6 + row) (some sym)
        let w := computeC4Winner board1
        { board := board1, winner := w, next := if w.isSome then none else some sym.other } := by
    rw [connect4Move, if_neg (by omega), if_neg (by rw [hwin, hnext]; simp), if_neg (by rw [hnext]; simp)]
  constructor
  · intro hlt
    obtain ⟨row0, hrow0, hempty0⟩ := (colOccupied_lt_iff g.board col).mp hlt
    rcases hdrop : c4DropRow g.board col with _ | row
    · have hall := (dropScan_eq_none 6 0).mp hdrop row0 (by omega) (by omega)
      rw [Option.isNone_iff_eq_none] at hempty0
      rw [hempty0] at hall
      simp at hall
    · obtain ⟨-, hr6, hempty, hbelow⟩ := (dropScan_eq_some 6 0 row).mp hdrop
      refine ⟨row, by omega, hempty, fun k hk => hbelow k (by omega) hk, ?_⟩
      rw [hgate, hdrop]
  · intro hge
    have hall : ∀ row, row < 6 → (g.board.getD (col * 6 + row) none).isSome = true := by
      intro row hr
      by_contra hn
      apply hge
      apply (colOccupied_lt_iff g.board col).mpr
      refine ⟨row, hr, ?_⟩
      rcases hv : g.board.getD (col * 6 + row) none with _ | v
      · rfl
      · rw [hv] at hn
        simp at hn
    have hdrop : c4DropRow g.board col = none := by
      apply (dropScan_eq_none 6 0).mpr
      intro k hk1 hk2
      exact hall k (by omega)
    rw [hgate, hdrop]

/-- Witness for C9 on the fresh 7x6 board: red drops into column 0. -/
theorem connect4_drop_spec_witness :
    ∃ row, row < 6 ∧
      (((List.replicate 42 (none : C4Cell))).getD (0 * 6 + row) none).isNone = true ∧
      (∀ k, k < row → (((List.replicate 42 (none : C4Cell))).getD (0 * 6 + k) none).isSome = true) ∧
      (connect4Move ⟨List.replicate 42 none, some C4Sym.R, none⟩ C4Sym.R 0).board =
        (List.replicate 42 (none : C4Cell)).set (0 * 6 + row) (some C4Sym.R) :=
  (connect4_drop_spec ⟨List.replicate 42 none, some C4Sym.R, none⟩ C4Sym.R 0
    (by decide) (by decide) (by decide)).1 (by decide)

/-! ## join_room seat assignment -/

structure JoinResult where
  players : List RoomPlayer
  color : Option ChessColor
  tttSymbol : Option TttSym
deriving DecidableEq, Repr

/-- The join_room handler (carrom revision), restricted to the parts that
assign the room list, the chess color and the tic-tac-toe symbol. -/
def joinRoom (current : List RoomPlayer) (sid username : String) : JoinResult :=
  let norm := normalizeUsername username
  let withoutThis := current.filter (fun p => p.id ≠ sid)
  let withoutDup := withoutThis.filter (fun p => p.usernameNormalized ≠ norm)
  let existingForSocket := current.find? (fun p => p.id = sid)
  let existingForUsername := current.find? (fun p => p.usernameNormalized = norm)
  let color0 := (existingForSocket.bind (fun p => p.color)).orElse
      (fun _ => existingForUsername.bind (fun p => p.color))
  let taken := withoutDup.map (fun p => p.color)
  let color :=
    match color0 with
    | some c => some c
    | none =>
      if some ChessColor.w ∈ taken then
        (if some ChessColor.b ∈ taken then none else some ChessColor.b)
      else some ChessColor.w
  let ludoIndex := (existingForSocket.bind (fun p => p.ludoIndex)).orElse
      (fun _ => existingForUsername.bind (fun p => p.ludoIndex))
  let updated := withoutDup ++ [⟨sid, username, norm, color, ludoIndex⟩]
  let ordered := updated.filter (fun p => p.usernameNormalized ≠ "")
  let xId := (ordered[0]?).map (fun p => p.id)
  let oId := (ordered[1]?).map (fun p => p.id)
  let tttSymbol :=
    if xId = some sid then some TttSym.X
    else if oId = some sid then some TttSym.O
    else none
  ⟨updated, color, tttSymbol⟩

/-- Seat priority order for chess colors: white, then black, then spectator. -/
def seatColor (k : Nat) : Option ChessColor :=
  if k = 0 then some ChessColor.w else if k = 1 then some ChessColor.b else none

/-- Seat priority order for tic-tac-toe symbols: X, then O, then spectator. -/
def seatSym (k : Nat) : Option TttSym :=
  if k = 0 then some TttSym.X else if k = 1 then some TttSym.O else none

/-- The room list produced by a sequence of fresh joins: the i-th joiner
holds the i-th seat. -/
def buildRoom : List (String × String) → Nat → List RoomPlayer
  | [], _ => []
  | j :: rest, k =>
    ⟨j.1, j.2, normalizeUsername j.2, seatColor k, none⟩ :: buildRoom rest (k + 1)

/-- The room list after folding a sequence of join_room events over the
empty room. -/
def roomAfter (js : List (String × String)) : List RoomPlayer :=
  js.foldl (fun l j => (joinRoom l j.1 j.2).players) []

/-- The colors already granted follow the seat priority order. -/
def SeatShape (l : List RoomPlayer) : Prop :=
  ∀ i (h : i < l.length), l[i].color = seatColor i

lemma joinRoom_fresh (l : List RoomPlayer) (sid u : String)
    (hid : ∀ p ∈ l, p.id ≠ sid)
    (hnm : ∀ p ∈ l, p.usernameNormalized ≠ normalizeUsername u)
    (hne : ∀ p ∈ l, p.usernameNormalized ≠ "")
    (hshape : SeatShape l)
    (hu : normalizeUsername u ≠ "") :
    joinRoom l sid u =
      ⟨l ++ [⟨sid, u, normalizeUsername u, seatColor l.length, none⟩],
        seatColor l.length, seatSym l.length⟩ := by
  have hfilter1 : l.filter (fun p => p.id ≠ sid) = l :=
    List.filter_eq_self.mpr (fun p hp => by simp [hid p hp])
  have hfilter2 : l.filter (fun p => p.usernameNormalized ≠ normalizeUsername u) = l :=
    List.filter_eq_self.mpr (fun p hp => by simp [hnm p hp])
  have hfind1 : l.find? (fun p => p.id = sid) = none :=
    List.find?_eq_none.mpr (fun p hp => by simp [hid p hp])
  have hfind2 : l.find? (fun p => p.usernameNormalized = normalizeUsername u) = none :=
    List.find?_eq_none.mpr (fun p hp => by simp [hnm p hp])
  rcases l with _ | ⟨p0, l1⟩
  · rw [joinRoom]
    simp only [List.filter_nil, List.find?_nil, Option.bind, Option.orElse, List.map_nil,
      List.nil_append, List.length_nil]
    simp only [seatColor, if_pos rfl]
    simp [seatSym]
    exact ⟨⟨sid, u, normalizeUsername u, some ChessColor.w, none⟩, by simp [hu], rfl⟩
  · rcases l1 with _ | ⟨p1, l2⟩
    · -- one prior player: the joiner takes black and O
      have hp0w : p0.color = seatColor 0 := hshape 0 (by simp)
      rw [joinRoom]
      simp only [hfilter1, hfilter2, hfind1, hfind2, Option.bind, Option.orElse]
      have htaken : ¬ (some ChessColor.b ∈ [p0].map (fun p => p.color)) := by
        simp [hp0w, seatColor]
      have hw : (some ChessColor.w ∈ [p0].map (fun p => p.color)) := by
        simp [hp0w, seatColor]
      rw [if_pos hw, if_neg htaken]
      have hordered : List.filter (fun p => decide ¬p.usernameNormalized = "")
          ([p0] ++ [(⟨sid, u, normalizeUsername u, some ChessColor.b, none⟩ : RoomPlayer)]) =
          [p0] ++ [⟨sid, u, normalizeUsername u, some ChessColor.b, none⟩] :=
        List.filter_eq_self.mpr (fun p hp => by
          simp only [List.mem_append, List.mem_singleton] at hp
          rcases hp with hp | hp
          · simp [hne p0 (by simp [hp]), hp]
          · subst hp
            simp [hu])
      simp only [hordered]
      have hx : ¬ ((([p0] ++ [(⟨sid, u, normalizeUsername u, some ChessColor.b, none⟩ :
          RoomPlayer)])[0]?).map (fun p => p.id) = some sid) := by
        simp [hid p0 (by simp)]
      rw [if_neg hx]
      simp [seatColor, seatSym]
    · -- at least two prior players: both seats taken, the joiner spectates
      have hp0w : p0.color = seatColor 0 := hshape 0 (by simp)
      have hp1b : p1.color = seatColor 1 := hshape 1 (by simp)
      rw [joinRoom]
      simp only [hfilter1, hfilter2, hfind1, hfind2, Option.bind, Option.orElse]
      have hw : (some ChessColor.w ∈ (p0 :: p1 :: l2).map (fun p => p.color)) := by
        simp only [List.map_cons, List.mem_cons]
        exact Or.inl (by rw [hp0w]; rfl)
      have hb : (some ChessColor.b ∈ (p0 :: p1 :: l2).map (fun p => p.color)) := by
        simp only [List.map_cons, List.mem_cons]
        exact Or.inr (Or.inl (by rw [hp1b]; rfl))
      rw [if_pos hw, if_pos hb]
      have hlen : (p0 :: p1 :: l2).length = l2.length + 2 := by simp
      have hordered : List.filter (fun p => decide ¬p.usernameNormalized = "")
          ((p0 :: p1 :: l2) ++ [(⟨sid, u, normalizeUsername u, none, none⟩ : RoomPlayer)]) =
          (p0 :: p1 :: l2) ++ [⟨sid, u, normalizeUsername u, none, none⟩] :=
        List.filter_eq_self.mpr (fun p hp => by
          simp only [List.mem_append, List.mem_singleton] at hp
          rcases hp with hp | hp
          · simp [hne p hp]
          · subst hp
            simp [hu])
      simp only [hordered]
      have hx : ¬ ((((p0 :: p1 :: l2) ++ [(⟨sid, u, normalizeUsername u, none, none⟩ :
          RoomPlayer)])[0]?).map (fun p => p.id) = some sid) := by
        simp [hid p0 (by simp)]
      have ho : ¬ ((((p0 :: p1 :: l2) ++ [(⟨sid, u, normalizeUsername u, none, none⟩ :
          RoomPlayer)])[1]?).map (fun p => p.id) = some sid) := by
        simp [hid p1 (by simp)]
      rw [if_neg hx, if_neg ho]
      have hsc : seatColor (p0 :: p1 :: l2).length = none := by
        rw [hlen, seatColor]
        simp
      have hss : seatSym (p0 :: p1 :: l2).length = none := by
        rw [hlen, seatSym]
        simp
      rw [hsc, hss]

lemma buildRoom_length (js : List (String × String)) : ∀ k, (buildRoom js k).length = js.length := by
  induction js with
  | nil => intro k; rfl
  | cons j rest ih => intro k; simp [buildRoom, ih (k + 1)]

lemma buildRoom_getElem? (js : List (String × String)) :
    ∀ k i, (buildRoom js k)[i]? =
      (js[i]?).map (fun j =>
        (⟨j.1, j.2, normalizeUsername j.2, seatColor (k + i), none⟩ : RoomPlayer)) := by
  induction js with
  | nil =>
    intro k i
    simp [buildRoom]
  | cons j rest ih =>
    intro k i
    rcases i with _ | i
    · simp [buildRoom]
    · have harith : k + 1 + i = k + (i + 1) := by omega
      simp only [buildRoom, List.getElem?_cons_succ, ih (k + 1) i, harith]

lemma buildRoom_mem {js : List (String × String)} {p : RoomPlayer} {k : Nat}
    (hp : p ∈ buildRoom js k) :
    ∃ j ∈ js, p.id = j.1 ∧ p.usernameNormalized = normalizeUsername j.2 := by
  induction js generalizing k with
  | nil => simp [buildRoom] at hp
  | cons j rest ih =>
    rw [buildRoom, List.mem_cons] at hp
    rcases hp with rfl | hp
    · exact ⟨j, List.mem_cons_self _ _, rfl, rfl⟩
    · obtain ⟨j', hj', h1, h2⟩ := ih hp
      exact ⟨j', List.mem_cons_of_mem _ hj', h1, h2⟩

lemma buildRoom_seatShape (js : List (String × String)) : SeatShape (buildRoom js 0) := by
  intro i h
  have hjs : i < js.length := by
    rw [← buildRoom_length js 0]
    exact h
  have hq := buildRoom_getElem? js 0 i
  rw [List.getElem?_eq_getElem h, List.getElem?_eq_getElem hjs] at hq
  simp only [Option.map_some, Nat.zero_add] at hq
  rw [Option.some_injective _ hq]

lemma roomAfter_build :
    ∀ (js : List (String × String)) (l : List RoomPlayer),
      (∀ j ∈ js, ∀ p ∈ l, p.id ≠ j.1 ∧ p.usernameNormalized ≠ normalizeUsername j.2) →
      js.Pairwise (fun a b => a.1 ≠ b.1 ∧ normalizeUsername a.2 ≠ normalizeUsername b.2) →
      (∀ j ∈ js, normalizeUsername j.2 ≠ "") →
      (∀ p ∈ l, p.usernameNormalized ≠ "") →
      SeatShape l →
      js.foldl (fun acc j => (joinRoom acc j.1 j.2).players) l = l ++ buildRoom js l.length := by
  intro js
  induction js with
  | nil =>
    intro l _ _ _ _ _
    simp [buildRoom]
  | cons j rest ih =>
    intro l hfresh hpair hnonempty hlne hshape
    have hstep := joinRoom_fresh l j.1 j.2
      (fun p hp => (hfresh j (List.mem_cons_self _ _) p hp).1)
      (fun p hp => (hfresh j (List.mem_cons_self _ _) p hp).2)
      hlne hshape (hnonempty j (List.mem_cons_self _ _))
    rw [List.foldl_cons, hstep]
    set newp : RoomPlayer := ⟨j.1, j.2, normalizeUsername j.2, seatColor l.length, none⟩ with hnewp
    have hrel : ∀ b ∈ rest, j.1 ≠ b.1 ∧ normalizeUsername j.2 ≠ normalizeUsername b.2 :=
      (List.pairwise_cons.mp hpair).1
    have hfresh' : ∀ b ∈ rest, ∀ p ∈ l ++ [newp],
        p.id ≠ b.1 ∧ p.usernameNormalized ≠ normalizeUsername b.2 := by
      intro b hb p hp
      rcases List.mem_append.mp hp with hp | hp
      · exact hfresh b (List.mem_cons_of_mem _ hb) p hp
      · simp only [List.mem_singleton] at hp
        subst hp
        exact (hrel b hb)
    have hlne' : ∀ p ∈ l ++ [newp], p.usernameNormalized ≠ "" := by
      intro p hp
      rcases List.mem_append.mp hp with hp | hp
      · exact hlne p hp
      · simp only [List.mem_singleton] at hp
        subst hp
        exact hnonempty j (List.mem_cons_self _ _)
    have hshape' : SeatShape (l ++ [newp]) := by
      intro i h
      rcases Nat.lt_or_ge i l.length with hi | hi
      · rw [List.getElem_append_left hi]
        exact hshape i hi
      · have hil : i = l.length := by
          simp only [List.length_append, List.length_singleton] at h
          omega
        subst hil
        rw [List.getElem_append_right (le_refl l.length)]
        simp
    have := ih (l ++ [newp]) hfresh' (List.pairwise_cons.mp hpair).2
      (fun b hb => hnonempty b (List.mem_cons_of_mem _ hb)) hlne' hshape'
    rw [this]
    rw [List.append_assoc]
    congr 1
    have hlen : (l ++ [newp]).length = l.length + 1 := by simp
    rw [hlen, buildRoom]
    rfl

/-- Amended claim C6: provided every join uses a fresh connection id and a
username whose normalization is distinct and nonempty, the joiner after k
prior joins receives the k-th seat in fixed priority order: white and X
first, black and O second, and a null role afterwards. -/
theorem join_seq_seat_order (js : List (String × String)) (sid username : String)
    (hP : (js ++ [(sid, username)]).Pairwise
      (fun a b => a.1 ≠ b.1 ∧ normalizeUsername a.2 ≠ normalizeUsername b.2))
    (hN : ∀ j ∈ js ++ [(sid, username)], normalizeUsername j.2 ≠ "") :
    (joinRoom (roomAfter js) sid username).color = seatColor js.length ∧
    (joinRoom (roomAfter js) sid username).tttSymbol = seatSym js.length := by
  rw [List.pairwise_append] at hP
  obtain ⟨hPjs, -, hrel⟩ := hP
  have hfreshnew : ∀ j ∈ js, j.1 ≠ sid ∧ normalizeUsername j.2 ≠ normalizeUsername username :=
    fun j hj => hrel j hj (sid, username) (List.mem_singleton_self _)
  have hbuild : roomAfter js = buildRoom js 0 := by
    rw [roomAfter]
    have := roomAfter_build js []
      (fun j _ p hp => absurd hp (List.not_mem_nil p))
      hPjs
      (fun j hj => hN j (List.mem_append_left _ hj))
      (fun p hp => absurd hp (List.not_mem_nil p))
      (fun i h => absurd h (by simp))
    rw [this]
    rfl
  have hmemid : ∀ p ∈ buildRoom js 0, p.id ≠ sid := by
    intro p hp
    obtain ⟨j, hj, h1, -⟩ := buildRoom_mem hp
    rw [h1]
    exact (hfreshnew j hj).1
  have hmemnm : ∀ p ∈ buildRoom js 0, p.usernameNormalized ≠ normalizeUsername username := by
    intro p hp
    obtain ⟨j, hj, -, h2⟩ := buildRoom_mem hp
    rw [h2]
    exact (hfreshnew j hj).2
  have hmemne : ∀ p ∈ buildRoom js 0, p.usernameNormalized ≠ "" := by
    intro p hp
    obtain ⟨j, hj, -, h2⟩ := buildRoom_mem hp
    rw [h2]
    exact hN j (List.mem_append_left _ hj)
  have hstep := joinRoom_fresh (buildRoom js 0) sid username hmemid hmemnm hmemne
    (buildRoom_seatShape js) (hN (sid, username) (List.mem_append_right _ (List.mem_singleton_self _)))
  rw [hbuild, hstep, buildRoom_length js 0]
  exact ⟨rfl, rfl⟩

/-- Witness for the amended C6: with one prior fresh joiner, the second
joiner receives black and O. -/
theorem join_seq_seat_order_witness :
    (joinRoom (roomAfter [(("s1"), ("Alice"))]) ("s2") ("Bob")).color = seatColor 1 ∧
    (joinRoom (roomAfter [(("s1"), ("Alice"))]) ("s2") ("Bob")).tttSymbol = seatSym 1 :=
  join_seq_seat_order [(("s1"), ("Alice"))] ("s2") ("Bob") (by decide) (by decide)

/-- Counterexample to C6 as stated: a username made of spaces normalizes
to the empty string; the joiner still receives the white chess seat but
is skipped by the tic-tac-toe ordering, so the first identity does not
receive X and the second identity receives X instead of O. -/
theorem join_empty_username_breaks_seat_order :
    (joinRoom [] ("s1") ("   ")).color = some ChessColor.w ∧
    (joinRoom [] ("s1") ("   ")).tttSymbol ≠ some TttSym.X ∧
    (joinRoom (joinRoom [] ("s1") ("   ")).players ("s2") ("Bob")).tttSymbol = some TttSym.X := by
  decide

/-! ## Carrom simulator

Positions and velocities are exact rationals.  The JavaScript runtime
functions Math.cos, Math.sin and Math.sqrt are abstracted as an arbitrary
but fixed interpretation; every theorem below holds for any choice, which
is precisely the determinism guarantee the code relies on. -/

inductive CarromPlayerId
  | A
  | B
deriving DecidableEq, Repr

def CarromPlayerId.other : CarromPlayerId → CarromPlayerId
  | .A => .B
  | .B => .A

inductive CoinColor
  | queen
  | white
  | black
deriving DecidableEq, Repr

structure Vec2 where
  x : ℚ
  y : ℚ
deriving DecidableEq, Repr

structure CarromCoin where
  id : String
  color : CoinColor
  owner : Option CarromPlayerId
  position : Vec2
  velocity : Vec2
  radius : ℚ
  pocketed : Bool
deriving DecidableEq, Repr

structure CarromStriker where
  position : Vec2
  velocity : Vec2
  radius : ℚ
deriving DecidableEq, Repr

structure CarromPlayerState where
  id : CarromPlayerId
  username : String
  colorSet : CoinColor
  score : ℤ
  fouls : ℤ
  coinsPocketed : ℤ
  queenCovered : Bool
deriving DecidableEq, Repr

inductive TurnPhase
  | aiming
  | moving
  | resolving
deriving DecidableEq, Repr

structure CarromBoardState where
  roomCode : String
  coins : List CarromCoin
  striker : CarromStriker
  currentPlayer : CarromPlayerId
  playerA : CarromPlayerState
  playerB : CarromPlayerState
  breakDone : Bool
  pendingQueenCoverFor : Option CarromPlayerId
  turnPhase : TurnPhase
  boardNumber : ℤ
  maxBoards : ℤ
  winnerPlayer : Option CarromPlayerId
deriving DecidableEq, Repr

def CarromBoardState.player (s : CarromBoardState) : CarromPlayerId → CarromPlayerState
  | .A => s.playerA
  | .B => s.playerB

def BOARD_SIZE : ℚ := 1
def STRIKER_RADIUS : ℚ := 35 / 1000
def COIN_RADIUS : ℚ := 25 / 1000
def POCKET_RADIUS : ℚ := 7 / 100

def dist2 (a b : Vec2) : ℚ :=
  (a.x - b.x) * (a.x - b.x) + (a.y - b.y) * (a.y - b.y)

def POCKETS : List Vec2 :=
  [⟨2 / 100, 2 / 100⟩, ⟨98 / 100, 2 / 100⟩, ⟨2 / 100, 98 / 100⟩, ⟨98 / 100, 98 / 100⟩]

/-- A fixed interpretation of the runtime math functions. -/
structure MathInterp where
  cos : ℚ → ℚ
  sin : ℚ → ℚ
  sqrt : ℚ → ℚ

structure CarromShotPayload where
  angle : ℚ
  power : ℚ
  baselineX : ℚ
deriving DecidableEq, Repr

/-- Math.max(0, Math.min(1, power)). -/
def clamp01 (q : ℚ) : ℚ := max 0 (min 1 q)

/-- speed = 1.8 * clamped power. -/
def strikerSpeed (power : ℚ) : ℚ := (9 / 5) * clamp01 power

/-- Integration time step dt = 0.016. -/
def simDt : ℚ := 16 / 1000

/-- Per-step velocity damping factor 0.985. -/
def simFriction : ℚ := 985 / 1000

/-- Number of integration steps. -/
def simSteps : Nat := 260

/-- A disc centre is inside some pocket capture radius. -/
def inPocket (pos : Vec2) : Bool :=
  POCKETS.any (fun p => dist2 pos p < POCKET_RADIUS * POCKET_RADIUS)

/-- Wall bounce on one axis: when the disc edge crosses the board
boundary the velocity component is scaled by -0.7. -/
def bounce1 (pos vel radius : ℚ) : ℚ :=
  if pos - radius < 0 ∨ pos + radius > BOARD_SIZE then vel * (-(7 / 10)) else vel

/-- The in-flight loop state: striker, coins, capture flags and the list
of coins pocketed during this shot, in capture order. -/
structure SimState where
  strikerPos : Vec2
  strikerVel : Vec2
  coins : List CarromCoin
  strikerPocketed : Bool
  shotPocketed : List CarromCoin
deriving DecidableEq, Repr

/-- The striker part of one integration step: advance, damp, bounce,
pocket detection. -/
def stepStriker (st : SimState) : SimState :=
  let pos : Vec2 := ⟨st.strikerPos.x + st.strikerVel.x * simDt,
                     st.strikerPos.y + st.strikerVel.y * simDt⟩
  let vel1 : Vec2 := ⟨st.strikerVel.x * simFriction, st.strikerVel.y * simFriction⟩
  let vel2 : Vec2 := ⟨bounce1 pos.x vel1.x STRIKER_RADIUS, bounce1 pos.y vel1.y STRIKER_RADIUS⟩
  if st.strikerPocketed = false ∧ inPocket pos = true then
    { st with strikerPos := pos, strikerVel := ⟨0, 0⟩, strikerPocketed := true }
  else
    { st with strikerPos := pos, strikerVel := vel2 }

/-- The striker-coin collision of one step: when the discs overlap and
the striker moves towards the coin, an impulse along the contact normal
adds 0.8 of the normal speed to the coin and removes 0.6 from the
striker.  Returns (new coin velocity, new striker velocity). -/
def collide (I : MathInterp) (strikerPos : Vec2) (coin : CarromCoin) (sVel : Vec2) :
    Vec2 × Vec2 :=
  let dx := coin.position.x - strikerPos.x
  let dy := coin.position.y - strikerPos.y
  let rSum := coin.radius + STRIKER_RADIUS
  let d2 := dx * dx + dy * dy
  if 0 < d2 ∧ d2 < rSum * rSum then
    let d := I.sqrt d2
    let nx := dx / d
    let ny := dy / d
    let relDot := sVel.x * nx + sVel.y * ny
    if 0 < relDot then
      ((⟨coin.velocity.x + nx * relDot * (8 / 10),
         coin.velocity.y + ny * relDot * (8 / 10)⟩ : Vec2),
       (⟨sVel.x - nx * relDot * (6 / 10),
         sVel.y - ny * relDot * (6 / 10)⟩ : Vec2))
    else (coin.velocity, sVel)
  else (coin.velocity, sVel)

/-- One coin of the per-step coin loop.  The accumulator carries the
striker velocity (mutated by collisions), the processed coins and the
shot's pocketed list. -/
def stepCoin (I : MathInterp) (strikerPos : Vec2)
    (acc : Vec2 × List CarromCoin × List CarromCoin) (coin : CarromCoin) :
    Vec2 × List CarromCoin × List CarromCoin :=
  let sVel := acc.1
  let done := acc.2.1
  let shot := acc.2.2
  if coin.pocketed then (sVel, done ++ [coin], shot)
  else
    let hit := collide I strikerPos coin sVel
    let cVel := hit.1
    let sVel1 := hit.2
    let pos : Vec2 := ⟨coin.position.x + cVel.x * simDt, coin.position.y + cVel.y * simDt⟩
    let vel2 : Vec2 := ⟨cVel.x * simFriction, cVel.y * simFriction⟩
    let vel3 : Vec2 := ⟨bounce1 pos.x vel2.x COIN_RADIUS, bounce1 pos.y vel2.y COIN_RADIUS⟩
    if inPocket pos then
      let c1 := { coin with position := pos, velocity := (⟨0, 0⟩ : Vec2), pocketed := true }
      (sVel1, done ++ [c1], shot ++ [c1])
    else
      (sVel1, done ++ [{ coin with position := pos, velocity := vel3 }], shot)

/-- One full integration step: striker, then every non-pocketed coin in
list order, threading the striker velocity through the collisions. -/
def simStep (I : MathInterp) (st : SimState) : SimState :=
  let st1 := stepStriker st
  let folded := st1.coins.foldl (stepCoin I st1.strikerPos) (st1.strikerVel, [], st1.shotPocketed)
  { st1 with strikerVel := folded.1, coins := folded.2.1, shotPocketed := folded.2.2 }

/-- The full 260-step simulation of carrom_shot, from striker placement. -/
def shotSim (I : MathInterp) (s : CarromBoardState) (me : CarromPlayerId)
    (payload : CarromShotPayload) : SimState :=
  let speed := strikerSpeed payload.power
  let startPos : Vec2 := ⟨payload.baselineX, if me = CarromPlayerId.A then 1 / 10 else 9 / 10⟩
  let startVel : Vec2 := ⟨I.cos payload.angle * speed, I.sin payload.angle * speed⟩
  (simStep I)^[simSteps] ⟨startPos, startVel, s.coins, false, []⟩

/-- The per-coin resolution tally of carrom_shot: counts of own and
opponent coins pocketed this shot, whether the queen fell, and the
pendingQueenCoverFor value as updated by the loop. -/
structure ShotTally where
  own : Nat
  opp : Nat
  queenF : Bool
  pending : Option CarromPlayerId
deriving DecidableEq, Repr

def tallyCoin (me : CarromPlayerId) (t : ShotTally) (c : CarromCoin) : ShotTally :=
  if c.color = CoinColor.queen then { t with queenF := true, pending := some me }
  else if c.owner = some me then { t with own := t.own + 1 }
  else if c.owner = some me.other then { t with opp := t.opp + 1 }
  else t

def shotTally (I : MathInterp) (s : CarromBoardState) (me : CarromPlayerId)
    (payload : CarromShotPayload) : ShotTally :=
  (shotSim I s me payload).shotPocketed.foldl (tallyCoin me) ⟨0, 0, false, s.pendingQueenCoverFor⟩

/-- Replace the first element satisfying p, leaving the rest unchanged
(the list analogue of mutating the object found by Array.find). -/
def replaceFirst {α : Type} (p : α → Bool) (f : α → α) : List α → List α
  | [] => []
  | a :: rest => if p a then f a :: rest else a :: replaceFirst p f rest

/-- Return the queen coin to board centre, un-pocketed and at rest. -/
def returnQueen (coins : List CarromCoin) : List CarromCoin :=
  replaceFirst (fun c => c.color = CoinColor.queen)
    (fun c =>
      { c with pocketed := false, position := (⟨1 / 2, 1 / 2⟩ : Vec2), velocity := (⟨0, 0⟩ : Vec2) })
    coins

/-- Predicate of the foul-reversal search: one of the acting player's own
previously pocketed, non-queen coins. -/
def foulReturnable (me : CarromPlayerId) (c : CarromCoin) : Bool :=
  c.owner = some me ∧ c.pocketed = true ∧ c.color ≠ CoinColor.queen

/-- Scoring of the acting player's own pocketed coins: +1 score and +1
pocketed count per coin. -/
def scoreMe (mp0 : CarromPlayerState) (t : ShotTally) : CarromPlayerState :=
  { mp0 with coinsPocketed := mp0.coinsPocketed + t.own, score := mp0.score + t.own }

/-- Scoring of the opponent's coins pocketed this shot (awarded to the
opponent regardless of who potted them). -/
def scoreOpp (op0 : CarromPlayerState) (t : ShotTally) : CarromPlayerState :=
  { op0 with coinsPocketed := op0.coinsPocketed + t.opp, score := op0.score + t.opp }

/-- Queen cover: when the cover is pending for the acting player and an
own coin fell this shot, the queen is covered (+5, flag set, pending
cleared). -/
def coverStep (me : CarromPlayerId) (t : ShotTally) (mp1 : CarromPlayerState) :
    CarromPlayerState × Option CarromPlayerId :=
  if t.pending = some me ∧ 0 < t.own then
    ({ mp1 with queenCovered := true, score := mp1.score + 5 }, (none : Option CarromPlayerId))
  else (mp1, t.pending)

/-- Queen return: a pending cover that failed again (no own coin, queen
not re-potted) returns the queen to centre and clears the pending flag. -/
def returnStep (me : CarromPlayerId) (t : ShotTally) (coins : List CarromCoin)
    (mp2 : CarromPlayerState) (pending2 : Option CarromPlayerId) :
    List CarromCoin × Option CarromPlayerId × CarromPlayerState :=
  if pending2 = some me ∧ t.own = 0 ∧ t.queenF = false then
    (returnQueen coins, (none : Option CarromPlayerId), { mp2 with queenCovered := false })
  else (coins, pending2, mp2)

/-- Striker foul: increment the foul count and, when possible, return one
of the acting player's own pocketed non-queen coins to centre, reversing
one point and one pocketed count (floored at 0). -/
def foulStep (me : CarromPlayerId) (strikerPocketed : Bool) (coins3 : List CarromCoin)
    (mp3 : CarromPlayerState) : List CarromCoin × CarromPlayerState :=
  if strikerPocketed then
    let mpF := { mp3 with fouls := mp3.fouls + 1 }
    match coins3.find? (foulReturnable me) with
    | some _ =>
      (replaceFirst (foulReturnable me)
        (fun c =>
          { c with pocketed := false, position := (⟨1 / 2, 1 / 2⟩ : Vec2), velocity := (⟨0, 0⟩ : Vec2) })
        coins3,
       { mpF with coinsPocketed := max 0 (mpF.coinsPocketed - 1), score := max 0 (mpF.score - 1) })
    | none => (coins3, mpF)
  else (coins3, mp3)

/-- The resolution phase of carrom_shot after the integration loop:
scoring, queen cover, queen return, striker foul, turn retention and the
winner check, in source order. -/
def resolveShot (s : CarromBoardState) (me : CarromPlayerId) (sim : SimState) : CarromBoardState :=
  let t := sim.shotPocketed.foldl (tallyCoin me) ⟨0, 0, false, s.pendingQueenCoverFor⟩
  let mp1 := scoreMe (s.player me) t
  let op1 := scoreOpp (s.player me.other) t
  let cover := coverStep me t mp1
  let ret := returnStep me t sim.coins cover.1 cover.2
  let foul := foulStep me sim.strikerPocketed ret.1 ret.2.2
  let keepTurn := sim.strikerPocketed = false ∧ (0 < t.own ∨ t.queenF = true)
  let current1 := if keepTurn then s.currentPlayer else me.other
  let pa : CarromPlayerState := match me with
    | .A => foul.2
    | .B => op1
  let pb : CarromPlayerState := match me with
    | .A => op1
    | .B => foul.2
  let aAll : Bool := decide (9 ≤ pa.coinsPocketed) && pa.queenCovered
  let bAll : Bool := decide (9 ≤ pb.coinsPocketed) && pb.queenCovered
  let winner1 := if aAll || bAll then
      (if aAll && !bAll then some CarromPlayerId.A
       else if !aAll && bAll then some CarromPlayerId.B
       else none)
    else s.winnerPlayer
  { s with
    coins := foul.1,
    striker := ⟨sim.strikerPos, sim.strikerVel, s.striker.radius⟩,
    playerA := pa,
    playerB := pb,
    pendingQueenCoverFor := ret.2.1,
    currentPlayer := current1,
    winnerPlayer := winner1,
    turnPhase := TurnPhase.aiming }

/-- The carrom_shot handler: reject (state unchanged) unless the sender
is the current player and the phase is aiming; otherwise place the
striker on the baseline, run the simulation and resolve. -/
def carromShot (I : MathInterp) (s : CarromBoardState) (me : CarromPlayerId)
    (payload : CarromShotPayload) : CarromBoardState :=
  if s.currentPlayer ≠ me ∨ s.turnPhase ≠ TurnPhase.aiming then s
  else resolveShot s me (shotSim I s me payload)

/-- The initial coin layout of createInitialCarromCoins. -/
def coinOffsets : List Vec2 :=
  [⟨0, 0⟩, ⟨1 / 20, 0⟩, ⟨-(1 / 20), 0⟩, ⟨0, 1 / 20⟩, ⟨0, -(1 / 20)⟩,
   ⟨1 / 25, 1 / 25⟩, ⟨-(1 / 25), 1 / 25⟩, ⟨1 / 25, -(1 / 25)⟩, ⟨-(1 / 25), -(1 / 25)⟩]

def initialCoinPair (roomCode : String) (i : Nat) : List CarromCoin :=
  let center : Vec2 := ⟨1 / 2, 1 / 2⟩
  let off := coinOffsets.getD (i % 9) ⟨0, 0⟩
  let baseId := roomCode ++ "-coin-" ++ toString i
  [⟨baseId ++ "-w", CoinColor.white, some CarromPlayerId.A,
     ⟨center.x + off.x * (6 / 10), center.y + off.y * (6 / 10)⟩, ⟨0, 0⟩, COIN_RADIUS, false⟩,
   ⟨baseId ++ "-b", CoinColor.black, some CarromPlayerId.B,
     ⟨center.x + off.x * (11 / 10), center.y + off.y * (11 / 10)⟩, ⟨0, 0⟩, COIN_RADIUS, false⟩]

def initialCarromCoins (roomCode : String) : List CarromCoin :=
  (⟨roomCode ++ "-queen", CoinColor.queen, none, ⟨1 / 2, 1 / 2⟩, ⟨0, 0⟩, COIN_RADIUS, false⟩ :
    CarromCoin) :: ((List.range 9).map (initialCoinPair roomCode)).flatten

/-- The fresh carrom board state of getOrCreateCarromState. -/
def initialCarromState (roomCode nameA nameB : String) : CarromBoardState :=
  { roomCode := roomCode,
    coins := initialCarromCoins roomCode,
    striker := ⟨⟨1 / 2, 1 / 10⟩, ⟨0, 0⟩, STRIKER_RADIUS⟩,
    currentPlayer := CarromPlayerId.A,
    playerA := ⟨CarromPlayerId.A, nameA, CoinColor.white, 0, 0, 0, false⟩,
    playerB := ⟨CarromPlayerId.B, nameB, CoinColor.black, 0, 0, 0, false⟩,
    breakDone := false,
    pendingQueenCoverFor := none,
    turnPhase := TurnPhase.aiming,
    boardNumber := 1,
    maxBoards := 8,
    winnerPlayer := none }

/-- An arbitrary concrete interpretation of the math functions, used for
concrete evaluations (with power 0 the simulation does not depend on it). -/
def zeroInterp : MathInterp := ⟨fun _ => 1, fun _ => 0, fun _ => 0⟩

lemma CarromPlayerId.other_ne (p : CarromPlayerId) : p.other ≠ p := by
  cases p <;> decide

lemma tally_foldl_own (me : CarromPlayerId) (l : List CarromCoin) :
    ∀ t : ShotTally, (l.foldl (tallyCoin me) t).own =
      t.own + (l.filter (fun c => c.color ≠ CoinColor.queen ∧ c.owner = some me)).length := by
  induction l with
  | nil => intro t; simp
  | cons c rest ih =>
    intro t
    rw [List.foldl_cons, ih]
    by_cases hq : c.color = CoinColor.queen
    · simp [tallyCoin, hq]
    · by_cases hown : c.owner = some me
      · simp [tallyCoin, hq, hown]
        omega
      · by_cases hopp : c.owner = some me.other
        · simp [tallyCoin, hq, hown, hopp, CarromPlayerId.other_ne me]
        · simp [tallyCoin, hq, hown, hopp]

lemma tally_foldl_queenF (me : CarromPlayerId) (l : List CarromCoin) :
    ∀ t : ShotTally, (l.foldl (tallyCoin me) t).queenF =
      (t.queenF || l.any (fun c => c.color = CoinColor.queen)) := by
  induction l with
  | nil => intro t; simp
  | cons c rest ih =>
    intro t
    rw [List.foldl_cons, ih]
    by_cases hq : c.color = CoinColor.queen
    · simp [tallyCoin, hq]
    · by_cases hown : c.owner = some me
      · simp [tallyCoin, hq, hown]
      · by_cases hopp : c.owner = some me.other
        · simp [tallyCoin, hq, hown, hopp, CarromPlayerId.other_ne me]
        · simp [tallyCoin, hq, hown, hopp]

lemma tally_foldl_pending (me : CarromPlayerId) (l : List CarromCoin) :
    ∀ t : ShotTally, (l.foldl (tallyCoin me) t).pending =
      (if l.any (fun c => c.color = CoinColor.queen) = true then some me else t.pending) := by
  induction l with
  | nil => intro t; simp
  | cons c rest ih =>
    intro t
    rw [List.foldl_cons, ih]
    by_cases hq : c.color = CoinColor.queen
    · simp [tallyCoin, hq]
    · by_cases hown : c.owner = some me
      · simp [tallyCoin, hq, hown]
      · by_cases hopp : c.owner = some me.other
        · simp [tallyCoin, hq, hown, hopp, CarromPlayerId.other_ne me]
        · simp [tallyCoin, hq, hown, hopp]

/-- Claim C1: the shot handler is a deterministic pure function: equal
prior states and equal payloads produce equal output states, for any
fixed interpretation of the runtime math functions. -/
theorem carrom_shot_deterministic (I : MathInterp) (s1 s2 : CarromBoardState)
    (me : CarromPlayerId) (p1 p2 : CarromShotPayload) (hs : s1 = s2) (hp : p1 = p2) :
    carromShot I s1 me p1 = carromShot I s2 me p2 := by
  subst hs
  subst hp
  rfl

/-- Witness for C1 at a concrete state and payload. -/
theorem carrom_shot_deterministic_witness :
    carromShot zeroInterp (initialCarromState ("ABCDEF") ("alice") ("bob"))
        CarromPlayerId.A ⟨0, 0, 1 / 2⟩ =
      carromShot zeroInterp (initialCarromState ("ABCDEF") ("alice") ("bob"))
        CarromPlayerId.A ⟨0, 0, 1 / 2⟩ :=
  carrom_shot_deterministic zeroInterp _ _ CarromPlayerId.A _ _ rfl rfl

lemma carromShot_accepted {I : MathInterp} {s : CarromBoardState} {me : CarromPlayerId}
    {payload : CarromShotPayload} (h1 : s.currentPlayer = me) (h2 : s.turnPhase = TurnPhase.aiming) :
    carromShot I s me payload = resolveShot s me (shotSim I s me payload) := by
  rw [carromShot, if_neg]
  rw [h1, h2]
  simp

lemma resolveShot_currentPlayer (s : CarromBoardState) (me : CarromPlayerId) (sim : SimState) :
    (resolveShot s me sim).currentPlayer =
      if sim.strikerPocketed = false ∧
          (0 < (sim.shotPocketed.foldl (tallyCoin me) ⟨0, 0, false, s.pendingQueenCoverFor⟩).own ∨
            (sim.shotPocketed.foldl (tallyCoin me) ⟨0, 0, false, s.pendingQueenCoverFor⟩).queenF = true)
        then s.currentPlayer else me.other := rfl

/-- Claim C2: for an accepted shot, the acting player keeps currentPlayer
iff the striker was not pocketed and at least one own coin or the queen
was pocketed this shot. -/
theorem carrom_turn_retention (I : MathInterp) (s : CarromBoardState) (me : CarromPlayerId)
    (payload : CarromShotPayload)
    (h1 : s.currentPlayer = me) (h2 : s.turnPhase = TurnPhase.aiming) :
    ((carromShot I s me payload).currentPlayer = me ↔
      ((shotSim I s me payload).strikerPocketed = false ∧
        (0 < ((shotSim I s me payload).shotPocketed.filter
            (fun c => c.color ≠ CoinColor.queen ∧ c.owner = some me)).length ∨
          (shotSim I s me payload).shotPocketed.any
            (fun c => c.color = CoinColor.queen) = true))) := by
  rw [carromShot_accepted h1 h2, resolveShot_currentPlayer]
  rw [tally_foldl_own, tally_foldl_queenF]
  simp only [Nat.zero_add, Bool.false_or]
  by_cases hk : (shotSim I s me payload).strikerPocketed = false ∧
      (0 < ((shotSim I s me payload).shotPocketed.filter
          (fun c => c.color ≠ CoinColor.queen ∧ c.owner = some me)).length ∨
        (shotSim I s me payload).shotPocketed.any (fun c => c.color = CoinColor.queen) = true)
  · rw [if_pos hk]
    exact iff_of_true h1 hk
  · rw [if_neg hk]
    exact iff_of_false (CarromPlayerId.other_ne me) hk

/-- The resolution tally applied to a finished simulation. -/
def resolveTally (s : CarromBoardState) (me : CarromPlayerId) (sim : SimState) : ShotTally :=
  sim.shotPocketed.foldl (tallyCoin me) ⟨0, 0, false, s.pendingQueenCoverFor⟩

lemma resolveShot_pending (s : CarromBoardState) (me : CarromPlayerId) (sim : SimState) :
    (resolveShot s me sim).pendingQueenCoverFor =
      (returnStep me (resolveTally s me sim) sim.coins
        (coverStep me (resolveTally s me sim) (scoreMe (s.player me) (resolveTally s me sim))).1
        (coverStep me (resolveTally s me sim) (scoreMe (s.player me) (resolveTally s me sim))).2).2.1 :=
  rfl

lemma resolveShot_coins (s : CarromBoardState) (me : CarromPlayerId) (sim : SimState) :
    (resolveShot s me sim).coins =
      (foulStep me sim.strikerPocketed
        (returnStep me (resolveTally s me sim) sim.coins
          (coverStep me (resolveTally s me sim) (scoreMe (s.player me) (resolveTally s me sim))).1
          (coverStep me (resolveTally s me sim) (scoreMe (s.player me) (resolveTally s me sim))).2).1
        (returnStep me (resolveTally s me sim) sim.coins
          (coverStep me (resolveTally s me sim) (scoreMe (s.player me) (resolveTally s me sim))).1
          (coverStep me (resolveTally s me sim) (scoreMe (s.player me) (resolveTally s me sim))).2).2.2).1 :=
  rfl

lemma resolveShot_player_me (s : CarromBoardState) (me : CarromPlayerId) (sim : SimState) :
    (resolveShot s me sim).player me =
      (foulStep me sim.strikerPocketed
        (returnStep me (resolveTally s me sim) sim.coins
          (coverStep me (resolveTally s me sim) (scoreMe (s.player me) (resolveTally s me sim))).1
          (coverStep me (resolveTally s me sim) (scoreMe (s.player me) (resolveTally s me sim))).2).1
        (returnStep me (resolveTally s me sim) sim.coins
          (coverStep me (resolveTally s me sim) (scoreMe (s.player me) (resolveTally s me sim))).1
          (coverStep me (resolveTally s me sim) (scoreMe (s.player me) (resolveTally s me sim))).2).2.2).2 := by
  cases me <;> rfl

lemma coverStep_pos {me : CarromPlayerId} {t : ShotTally} (mp1 : CarromPlayerState)
    (h : t.pending = some me ∧ 0 < t.own) :
    coverStep me t mp1 = ({ mp1 with queenCovered := true, score := mp1.score + 5 }, none) := by
  rw [coverStep, if_pos h]

lemma coverStep_neg {me : CarromPlayerId} {t : ShotTally} (mp1 : CarromPlayerState)
    (h : ¬ (t.pending = some me ∧ 0 < t.own)) :
    coverStep me t mp1 = (mp1, t.pending) := by
  rw [coverStep, if_neg h]

lemma returnStep_pos {me : CarromPlayerId} {t : ShotTally} (coins : List CarromCoin)
    (mp2 : CarromPlayerState) {pending2 : Option CarromPlayerId}
    (h : pending2 = some me ∧ t.own = 0 ∧ t.queenF = false) :
    returnStep me t coins mp2 pending2 =
      (returnQueen coins, none, { mp2 with queenCovered := false }) := by
  rw [returnStep, if_pos h]

lemma returnStep_neg {me : CarromPlayerId} {t : ShotTally} (coins : List CarromCoin)
    (mp2 : CarromPlayerState) {pending2 : Option CarromPlayerId}
    (h : ¬ (pending2 = some me ∧ t.own = 0 ∧ t.queenF = false)) :
    returnStep me t coins mp2 pending2 = (coins, pending2, mp2) := by
  rw [returnStep, if_neg h]

lemma foulStep_queenCovered (me : CarromPlayerId) (sp : Bool) (coins : List CarromCoin)
    (mp : CarromPlayerState) : ((foulStep me sp coins mp).2).queenCovered = mp.queenCovered := by
  cases sp
  · rfl
  · rw [foulStep]
    rcases hf : coins.find? (foulReturnable me) with _ | c <;> simp [hf]

lemma foulStep_noFoul (me : CarromPlayerId) (coins : List CarromCoin) (mp : CarromPlayerState) :
    foulStep me false coins mp = (coins, mp) := rfl

lemma replaceFirst_find?_self {α : Type} (p : α → Bool) (f : α → α)
    (hp : ∀ a, p a = true → p (f a) = true) :
    ∀ l : List α, (replaceFirst p f l).find? p = (l.find? p).map f := by
  intro l
  induction l with
  | nil => rfl
  | cons a rest ih =>
    by_cases hpa : p a = true
    · rw [replaceFirst, if_pos hpa, List.find?_cons_of_pos _ (hp a hpa),
        List.find?_cons_of_pos _ hpa]
      rfl
    · have hpa' : p a = false := by
        rcases hv : p a
        · rfl
        · exact absurd hv hpa
      rw [replaceFirst, if_neg hpa, List.find?_cons_of_neg _ (by rw [hpa']; simp),
        List.find?_cons_of_neg _ (by rw [hpa']; simp), ih]

lemma replaceFirst_find?_other {α : Type} (p q : α → Bool) (f : α → α)
    (hdisj : ∀ a, p a = true → q a = false) (hpres : ∀ a, q (f a) = q a) :
    ∀ l : List α, (replaceFirst p f l).find? q = l.find? q := by
  intro l
  induction l with
  | nil => rfl
  | cons a rest ih =>
    by_cases hpa : p a = true
    · have hqa : q a = false := hdisj a hpa
      have hqfa : q (f a) = false := by rw [hpres, hqa]
      rw [replaceFirst, if_pos hpa, List.find?_cons_of_neg _ (by rw [hqfa]; simp),
        List.find?_cons_of_neg _ (by rw [hqa]; simp)]
    · rw [replaceFirst, if_neg hpa]
      rcases hqa : q a
      · rw [List.find?_cons_of_neg _ (by rw [hqa]; simp),
          List.find?_cons_of_neg _ (by rw [hqa]; simp), ih]
      · rw [List.find?_cons_of_pos _ hqa, List.find?_cons_of_pos _ hqa]

lemma returnQueen_find? (coins : List CarromCoin) :
    (returnQueen coins).find? (fun c => c.color = CoinColor.queen) =
      (coins.find? (fun c => c.color = CoinColor.queen)).map
        (fun c =>
          { c with pocketed := false, position := (⟨1 / 2, 1 / 2⟩ : Vec2), velocity := (⟨0, 0⟩ : Vec2) }) := by
  rw [returnQueen]
  exact replaceFirst_find?_self _ _ (fun a ha => by simpa using ha) coins

lemma foulStep_find?_queen (me : CarromPlayerId) (sp : Bool) (coins : List CarromCoin)
    (mp : CarromPlayerState) :
    ((foulStep me sp coins mp).1).find? (fun c => c.color = CoinColor.queen) =
      coins.find? (fun c => c.color = CoinColor.queen) := by
  cases sp
  · rfl
  · rw [foulStep]
    rcases hf : coins.find? (foulReturnable me) with _ | c
    · simp [hf]
    · simp only [hf]
      apply replaceFirst_find?_other
      · intro a ha
        rw [foulReturnable] at ha
        simp only [decide_eq_true_eq] at ha
        simp [ha.2.2]
      · intro a
        rfl

lemma queenCover_pending_set (s : CarromBoardState) (me : CarromPlayerId) (sim : SimState)
    (hq : sim.shotPocketed.any (fun c => c.color = CoinColor.queen) = true)
    (hown : (sim.shotPocketed.filter
      (fun c => c.color ≠ CoinColor.queen ∧ c.owner = some me)).length = 0) :
    (resolveShot s me sim).pendingQueenCoverFor = some me := by
  have htown : (resolveTally s me sim).own = 0 := by
    rw [resolveTally, tally_foldl_own]
    simpa using hown
  have htq : (resolveTally s me sim).queenF = true := by
    rw [resolveTally, tally_foldl_queenF, Bool.false_or]
    exact hq
  have htp : (resolveTally s me sim).pending = some me := by
    rw [resolveTally, tally_foldl_pending, if_pos hq]
  rw [resolveShot_pending, coverStep_neg _ (by rw [htown]; simp)]
  dsimp only
  rw [returnStep_neg _ _ (show ¬ ((resolveTally s me sim).pending = some me ∧
      (resolveTally s me sim).own = 0 ∧ (resolveTally s me sim).queenF = false) by
    rintro ⟨-, -, hc⟩
    rw [htq] at hc
    cases hc)]
  exact htp

lemma queenCover_covered (s : CarromBoardState) (me : CarromPlayerId) (sim : SimState)
    (hq : sim.shotPocketed.any (fun c => c.color = CoinColor.queen) = true)
    (hown : 0 < (sim.shotPocketed.filter
      (fun c => c.color ≠ CoinColor.queen ∧ c.owner = some me)).length) :
    ((resolveShot s me sim).player me).queenCovered = true ∧
    (resolveShot s me sim).pendingQueenCoverFor = none ∧
    (sim.strikerPocketed = false →
      ((resolveShot s me sim).player me).score =
        (s.player me).score + ((sim.shotPocketed.filter
          (fun c => c.color ≠ CoinColor.queen ∧ c.owner = some me)).length : ℤ) + 5) := by
  have htown : (resolveTally s me sim).own = (sim.shotPocketed.filter
      (fun c => c.color ≠ CoinColor.queen ∧ c.owner = some me)).length := by
    rw [resolveTally, tally_foldl_own]
    simp
  have htp : (resolveTally s me sim).pending = some me := by
    rw [resolveTally, tally_foldl_pending, if_pos hq]
  have hcovpos : (resolveTally s me sim).pending = some me ∧ 0 < (resolveTally s me sim).own :=
    ⟨htp, by rw [htown]; exact hown⟩
  have hretneg : ¬ ((none : Option CarromPlayerId) = some me ∧
      (resolveTally s me sim).own = 0 ∧ (resolveTally s me sim).queenF = false) := by
    rintro ⟨hc, -, -⟩
    cases hc
  refine ⟨?_, ?_, ?_⟩
  · rw [resolveShot_player_me, coverStep_pos _ hcovpos]
    dsimp only
    rw [returnStep_neg _ _ hretneg]
    dsimp only
    rw [foulStep_queenCovered]
  · rw [resolveShot_pending, coverStep_pos _ hcovpos]
    dsimp only
    rw [returnStep_neg _ _ hretneg]
  · intro hsp
    rw [resolveShot_player_me, coverStep_pos _ hcovpos]
    dsimp only
    rw [returnStep_neg _ _ hretneg, hsp, foulStep_noFoul]
    dsimp only
    simp only [scoreMe, htown]

lemma queenCover_return (s : CarromBoardState) (me : CarromPlayerId) (sim : SimState)
    (hpend : s.pendingQueenCoverFor = some me)
    (hown : (sim.shotPocketed.filter
      (fun c => c.color ≠ CoinColor.queen ∧ c.owner = some me)).length = 0)
    (hq : sim.shotPocketed.any (fun c => c.color = CoinColor.queen) = false) :
    (resolveShot s me sim).pendingQueenCoverFor = none ∧
    (resolveShot s me sim).coins.find? (fun c => c.color = CoinColor.queen) =
      (sim.coins.find? (fun c => c.color = CoinColor.queen)).map
        (fun c =>
          { c with pocketed := false, position := (⟨1 / 2, 1 / 2⟩ : Vec2), velocity := (⟨0, 0⟩ : Vec2) }) := by
  have htown : (resolveTally s me sim).own = 0 := by
    rw [resolveTally, tally_foldl_own]
    simpa using hown
  have htq : (resolveTally s me sim).queenF = false := by
    rw [resolveTally, tally_foldl_queenF, Bool.false_or]
    exact hq
  have htp : (resolveTally s me sim).pending = some me := by
    rw [resolveTally, tally_foldl_pending, hq]
    simpa using hpend
  constructor
  · rw [resolveShot_pending, coverStep_neg _ (by rw [htown]; simp)]
    dsimp only
    rw [returnStep_pos _ _ ⟨htp, htown, htq⟩]
  · rw [resolveShot_coins, coverStep_neg _ (by rw [htown]; simp)]
    dsimp only
    rw [returnStep_pos _ _ ⟨htp, htown, htq⟩]
    dsimp only
    rw [foulStep_find?_queen, returnQueen_find?]

/-- Claim C4: queen handling of an accepted shot: (1) queen pocketed with
no own coin leaves the cover pending for the acting player; (2) queen
pocketed together with an own coin covers the queen (+5 on top of the
per-coin awards when no foul occurred) and clears the pending flag;
(3) a cover pending from a prior turn that pockets no own coin and does
not re-pot the queen returns the queen to centre un-pocketed and clears
the pending flag. -/
theorem carrom_queen_cover (I : MathInterp) (s : CarromBoardState) (me : CarromPlayerId)
    (payload : CarromShotPayload)
    (h1 : s.currentPlayer = me) (h2 : s.turnPhase = TurnPhase.aiming) :
    ((shotSim I s me payload).shotPocketed.any (fun c => c.color = CoinColor.queen) = true →
      ((shotSim I s me payload).shotPocketed.filter
        (fun c => c.color ≠ CoinColor.queen ∧ c.owner = some me)).length = 0 →
      (carromShot I s me payload).pendingQueenCoverFor = some me) ∧
    ((shotSim I s me payload).shotPocketed.any (fun c => c.color = CoinColor.queen) = true →
      0 < ((shotSim I s me payload).shotPocketed.filter
        (fun c => c.color ≠ CoinColor.queen ∧ c.owner = some me)).length →
      ((carromShot I s me payload).player me).queenCovered = true ∧
      (carromShot I s me payload).pendingQueenCoverFor = none ∧
      ((shotSim I s me payload).strikerPocketed = false →
        ((carromShot I s me payload).player me).score =
          (s.player me).score + (((shotSim I s me payload).shotPocketed.filter
            (fun c => c.color ≠ CoinColor.queen ∧ c.owner = some me)).length : ℤ) + 5)) ∧
    (s.pendingQueenCoverFor = some me →
      ((shotSim I s me payload).shotPocketed.filter
        (fun c => c.color ≠ CoinColor.queen ∧ c.owner = some me)).length = 0 →
      (shotSim I s me payload).shotPocketed.any (fun c => c.color = CoinColor.queen) = false →
      (carromShot I s me payload).pendingQueenCoverFor = none ∧
      (carromShot I s me payload).coins.find? (fun c => c.color = CoinColor.queen) =
        ((shotSim I s me payload).coins.find? (fun c => c.color = CoinColor.queen)).map
          (fun c =>
            { c with pocketed := false, position := (⟨1 / 2, 1 / 2⟩ : Vec2), velocity := (⟨0, 0⟩ : Vec2) })) := by
  rw [carromShot_accepted h1 h2]
  exact ⟨fun hq hown => queenCover_pending_set s me _ hq hown,
         fun hq hown => queenCover_covered s me _ hq hown,
         fun hp hown hq => queenCover_return s me _ hp hown hq⟩

/-- A fresh board with a queen cover pending for player A. -/
def sPendWit : CarromBoardState :=
  { initialCarromState ("ABCDEF") ("alice") ("bob") with
    pendingQueenCoverFor := some CarromPlayerId.A }

/-- Witness for C2 at the initial state with a zero-power shot. -/
theorem carrom_turn_retention_witness :
    ((carromShot zeroInterp (initialCarromState ("ABCDEF") ("alice") ("bob"))
        CarromPlayerId.A ⟨0, 0, 1 / 2⟩).currentPlayer = CarromPlayerId.A ↔
      ((shotSim zeroInterp (initialCarromState ("ABCDEF") ("alice") ("bob"))
          CarromPlayerId.A ⟨0, 0, 1 / 2⟩).strikerPocketed = false ∧
        (0 < ((shotSim zeroInterp (initialCarromState ("ABCDEF") ("alice") ("bob"))
            CarromPlayerId.A ⟨0, 0, 1 / 2⟩).shotPocketed.filter
            (fun c => c.color ≠ CoinColor.queen ∧ c.owner = some CarromPlayerId.A)).length ∨
          (shotSim zeroInterp (initialCarromState ("ABCDEF") ("alice") ("bob"))
            CarromPlayerId.A ⟨0, 0, 1 / 2⟩).shotPocketed.any
            (fun c => c.color = CoinColor.queen) = true))) :=
  carrom_turn_retention zeroInterp (initialCarromState ("ABCDEF") ("alice") ("bob"))
    CarromPlayerId.A ⟨0, 0, 1 / 2⟩ rfl rfl

/-! ## Power-zero shots (claim C3) -/

lemma bounce1_zero (p r : ℚ) : bounce1 p 0 r = 0 := by
  rw [bounce1]
  split_ifs <;> ring

lemma resolveShot_striker (s : CarromBoardState) (me : CarromPlayerId) (sim : SimState) :
    (resolveShot s me sim).striker = ⟨sim.strikerPos, sim.strikerVel, s.striker.radius⟩ := rfl

lemma stepStriker_fixed (st : SimState) (hv : st.strikerVel = ⟨0, 0⟩)
    (hp : inPocket st.strikerPos = false) : stepStriker st = st := by
  simp only [stepStriker]
  have hpos : (⟨st.strikerPos.x + st.strikerVel.x * simDt,
      st.strikerPos.y + st.strikerVel.y * simDt⟩ : Vec2) = st.strikerPos := by
    rw [hv]
    simp
  rw [hpos, hp]
  simp only [Bool.false_eq_true, and_false, if_false]
  rw [hv]
  simp [bounce1_zero, ← hv]

lemma collide_zero (I : MathInterp) (spos : Vec2) (coin : CarromCoin) :
    collide I spos coin ⟨0, 0⟩ = (coin.velocity, ⟨0, 0⟩) := by
  rw [collide]
  dsimp only
  split_ifs with h1 h2
  · exfalso
    simp at h2
  · rfl
  · rfl

lemma stepCoin_fixed (I : MathInterp) (spos : Vec2) (coin : CarromCoin)
    (hc : coin.pocketed = false → coin.velocity = ⟨0, 0⟩ ∧ inPocket coin.position = false) :
    ∀ done shot, stepCoin I spos (⟨0, 0⟩, done, shot) coin = (⟨0, 0⟩, done ++ [coin], shot) := by
  intro done shot
  rcases hpk : coin.pocketed with _ | _
  · obtain ⟨hcv, hcp⟩ := hc hpk
    simp only [stepCoin, hpk, Bool.false_eq_true, if_false, collide_zero]
    have hpos : (⟨coin.position.x + coin.velocity.x * simDt,
        coin.position.y + coin.velocity.y * simDt⟩ : Vec2) = coin.position := by
      rw [hcv]
      simp
    rw [hpos, hcp]
    simp only [Bool.false_eq_true, if_false]
    rw [hcv]
    simp only [bounce1_zero, zero_mul]
    have hrec : (⟨coin.id, coin.color, coin.owner, coin.position, ⟨0, 0⟩, coin.radius,
                  false⟩ : CarromCoin) = coin := by
      rw [← hcv, ← hpk]
    rw [hrec]
  · simp [stepCoin, hpk]

lemma stepCoin_foldl_fixed (I : MathInterp) (spos : Vec2) (l : List CarromCoin)
    (h : ∀ c ∈ l, c.pocketed = false → c.velocity = ⟨0, 0⟩ ∧ inPocket c.position = false) :
    ∀ done shot, l.foldl (stepCoin I spos) (⟨0, 0⟩, done, shot) = (⟨0, 0⟩, done ++ l, shot) := by
  induction l with
  | nil => intro done shot; simp
  | cons c rest ih =>
    intro done shot
    rw [List.foldl_cons, stepCoin_fixed I spos c (h c (List.mem_cons_self _ _)),
      ih (fun x hx => h x (List.mem_cons_of_mem _ hx)) (done ++ [c]) shot]
    simp

lemma simStep_fixed (I : MathInterp) (st : SimState)
    (hv : st.strikerVel = ⟨0, 0⟩) (hp : inPocket st.strikerPos = false)
    (hcoins : ∀ c ∈ st.coins, c.pocketed = false →
      c.velocity = ⟨0, 0⟩ ∧ inPocket c.position = false) :
    simStep I st = st := by
  simp only [simStep, stepStriker_fixed st hv hp]
  rw [hv, stepCoin_foldl_fixed I st.strikerPos st.coins hcoins [] st.shotPocketed]
  dsimp only
  rw [List.nil_append, ← hv]

lemma baseline_y_not_inPocket (bx y : ℚ)
    (h1 : 49 / 10000 ≤ (y - 2 / 100) * (y - 2 / 100))
    (h2 : 49 / 10000 ≤ (y - 98 / 100) * (y - 98 / 100)) :
    inPocket ⟨bx, y⟩ = false := by
  simp only [inPocket, POCKETS, List.any_cons, List.any_nil, Bool.or_false,
    Bool.or_eq_false_iff, decide_eq_false_iff_not, not_lt, dist2, POCKET_RADIUS]
  norm_num
  refine ⟨?_, ?_, ?_, ?_⟩ <;>
    nlinarith [mul_self_nonneg (bx - 2 / 100), mul_self_nonneg (bx - 98 / 100)]

lemma center_not_inPocket (x y : ℚ) (hx1 : 4 / 10 ≤ x) (hx2 : x ≤ 6 / 10)
    (hy1 : 4 / 10 ≤ y) (hy2 : y ≤ 6 / 10) : inPocket ⟨x, y⟩ = false := by
  simp only [inPocket, POCKETS, List.any_cons, List.any_nil, Bool.or_false,
    Bool.or_eq_false_iff, decide_eq_false_iff_not, not_lt, dist2, POCKET_RADIUS]
  norm_num
  refine ⟨?_, ?_, ?_, ?_⟩ <;> nlinarith

lemma coinOffsets_bound : ∀ off ∈ coinOffsets,
    -(1 / 20) ≤ off.x ∧ off.x ≤ 1 / 20 ∧ -(1 / 20) ≤ off.y ∧ off.y ≤ 1 / 20 := by
  intro off hoff
  fin_cases hoff <;> norm_num

/-- Every coin of the fresh layout is at rest near the board centre,
outside every pocket zone. -/
lemma initialCoins_rest (rc : String) :
    ∀ c ∈ initialCarromCoins rc, c.pocketed = false →
      c.velocity = ⟨0, 0⟩ ∧ inPocket c.position = false := by
  intro c hc _
  rw [initialCarromCoins, List.mem_cons] at hc
  rcases hc with rfl | hc
  · exact ⟨rfl, center_not_inPocket _ _ (by norm_num) (by norm_num) (by norm_num) (by norm_num)⟩
  · rw [List.mem_flatten] at hc
    obtain ⟨l, hl, hcl⟩ := hc
    rw [List.mem_map] at hl
    obtain ⟨i, hi, rfl⟩ := hl
    have hmem : coinOffsets.getD (i % 9) ⟨0, 0⟩ ∈ coinOffsets := by
      have h9 : i % 9 < coinOffsets.length := by
        have : i % 9 < 9 := Nat.mod_lt _ (by norm_num)
        simpa [coinOffsets]
      rw [List.getD_eq_getElem _ _ h9]
      exact List.getElem_mem h9
    obtain ⟨h1, h2, h3, h4⟩ := coinOffsets_bound _ hmem
    simp only [initialCoinPair, List.mem_cons, List.not_mem_nil, or_false] at hcl
    rcases hcl with rfl | rfl
    · refine ⟨rfl, center_not_inPocket _ _ ?_ ?_ ?_ ?_⟩ <;> dsimp only <;> nlinarith
    · refine ⟨rfl, center_not_inPocket _ _ ?_ ?_ ?_ ?_⟩ <;> dsimp only <;> nlinarith

lemma baseline_not_inPocket (bx : ℚ) (me : CarromPlayerId) :
    inPocket ⟨bx, if me = CarromPlayerId.A then 1 / 10 else 9 / 10⟩ = false := by
  cases me
  · show inPocket ⟨bx, 1 / 10⟩ = false
    apply baseline_y_not_inPocket <;> norm_num
  · show inPocket ⟨bx, 9 / 10⟩ = false
    apply baseline_y_not_inPocket <;> norm_num

lemma shotSim_power0 (I : MathInterp) (s : CarromBoardState) (me : CarromPlayerId)
    (payload : CarromShotPayload) (hpow : payload.power = 0)
    (hcoins : ∀ c ∈ s.coins, c.pocketed = false →
      c.velocity = ⟨0, 0⟩ ∧ inPocket c.position = false) :
    shotSim I s me payload =
      ⟨⟨payload.baselineX, if me = CarromPlayerId.A then 1 / 10 else 9 / 10⟩,
        ⟨0, 0⟩, s.coins, false, []⟩ := by
  have hspeed : strikerSpeed payload.power = 0 := by
    rw [hpow, strikerSpeed, clamp01]
    norm_num
  simp only [shotSim]
  have hvel : (⟨I.cos payload.angle * strikerSpeed payload.power,
      I.sin payload.angle * strikerSpeed payload.power⟩ : Vec2) = ⟨0, 0⟩ := by
    rw [hspeed]
    simp
  rw [hvel]
  exact Function.iterate_fixed
    (simStep_fixed I
      ⟨⟨payload.baselineX, if me = CarromPlayerId.A then 1 / 10 else 9 / 10⟩,
        ⟨0, 0⟩, s.coins, false, []⟩
      rfl (baseline_not_inPocket payload.baselineX me) hcoins) simSteps

/-- Amended claim C3: for an accepted shot with power 0 from a state
whose non-pocketed coins are at rest and outside every pocket zone, and
with no queen cover pending for the acting player, the coin list is
unchanged (zero net displacement of every coin), nothing is captured,
and the striker ends at rest at its baseline placement (baselineX, 0.1
for A, 0.9 for B) - which may differ from its pre-shot position. -/
theorem carrom_power0_no_motion (I : MathInterp) (s : CarromBoardState) (me : CarromPlayerId)
    (payload : CarromShotPayload)
    (h1 : s.currentPlayer = me) (h2 : s.turnPhase = TurnPhase.aiming)
    (hpow : payload.power = 0)
    (hcoins : ∀ c ∈ s.coins, c.pocketed = false →
      c.velocity = ⟨0, 0⟩ ∧ inPocket c.position = false)
    (hpend : s.pendingQueenCoverFor ≠ some me) :
    (carromShot I s me payload).coins = s.coins ∧
    (shotSim I s me payload).shotPocketed = [] ∧
    (shotSim I s me payload).strikerPocketed = false ∧
    (carromShot I s me payload).striker.position =
      ⟨payload.baselineX, if me = CarromPlayerId.A then 1 / 10 else 9 / 10⟩ ∧
    (carromShot I s me payload).striker.velocity = ⟨0, 0⟩ := by
  have hsim := shotSim_power0 I s me payload hpow hcoins
  rw [carromShot_accepted h1 h2, hsim]
  refine ⟨?_, rfl, rfl, rfl, rfl⟩
  rw [resolveShot_coins]
  rw [coverStep_neg _ (by rintro ⟨-, hlt⟩; simp [resolveTally] at hlt)]
  dsimp only
  rw [returnStep_neg _ _ (by
    rintro ⟨hpq, -, -⟩
    apply hpend
    simpa [resolveTally] using hpq)]
  dsimp only
  rw [foulStep_noFoul]

/-- Witness for the amended C3 at the initial board state. -/
theorem carrom_power0_no_motion_witness :
    (carromShot zeroInterp (initialCarromState ("ABCDEF") ("alice") ("bob")) CarromPlayerId.A
      ⟨0, 0, 1 / 2⟩).coins = (initialCarromState ("ABCDEF") ("alice") ("bob")).coins ∧
    (shotSim zeroInterp (initialCarromState ("ABCDEF") ("alice") ("bob")) CarromPlayerId.A
      ⟨0, 0, 1 / 2⟩).shotPocketed = [] ∧
    (shotSim zeroInterp (initialCarromState ("ABCDEF") ("alice") ("bob")) CarromPlayerId.A
      ⟨0, 0, 1 / 2⟩).strikerPocketed = false ∧
    (carromShot zeroInterp (initialCarromState ("ABCDEF") ("alice") ("bob")) CarromPlayerId.A
      ⟨0, 0, 1 / 2⟩).striker.position =
      ⟨(1 / 2 : ℚ), if CarromPlayerId.A = CarromPlayerId.A then 1 / 10 else 9 / 10⟩ ∧
    (carromShot zeroInterp (initialCarromState ("ABCDEF") ("alice") ("bob")) CarromPlayerId.A
      ⟨0, 0, 1 / 2⟩).striker.velocity = ⟨0, 0⟩ :=
  carrom_power0_no_motion zeroInterp (initialCarromState ("ABCDEF") ("alice") ("bob"))
    CarromPlayerId.A ⟨0, 0, 1 / 2⟩ rfl rfl rfl (initialCoins_rest ("ABCDEF"))
    (fun h => Option.noConfusion h)

/-- Counterexample to C3 as stated: a power-0 shot does not leave every
disc where it started, because the handler first teleports the striker to
the baseline spot.  From the fresh board (striker at (0.5, 0.1)) a
power-0 shot with baselineX = 0.3 ends with the striker at (0.3, 0.1). -/
theorem carrom_power0_displaces_striker :
    (carromShot zeroInterp (initialCarromState ("ABCDEF") ("alice") ("bob")) CarromPlayerId.A
        ⟨0, 0, 3 / 10⟩).striker.position ≠
      (initialCarromState ("ABCDEF") ("alice") ("bob")).striker.position := by
  have hsim := shotSim_power0 zeroInterp (initialCarromState ("ABCDEF") ("alice") ("bob"))
    CarromPlayerId.A ⟨0, 0, 3 / 10⟩ rfl (initialCoins_rest ("ABCDEF"))
  have hacc := @carromShot_accepted zeroInterp (initialCarromState ("ABCDEF") ("alice") ("bob"))
    CarromPlayerId.A ⟨0, 0, 3 / 10⟩ rfl rfl
  rw [hacc, resolveShot_striker, hsim]
  intro heq
  have hx := congrArg Vec2.x heq
  norm_num [initialCarromState] at hx

/-- Witness for C4: its third clause (queen return) instantiated at a
fresh board with a pending cover and a power-0 shot by A. -/
theorem carrom_queen_cover_witness :
    (carromShot zeroInterp sPendWit CarromPlayerId.A ⟨0, 0, 1 / 2⟩).pendingQueenCoverFor = none ∧
    (carromShot zeroInterp sPendWit CarromPlayerId.A ⟨0, 0, 1 / 2⟩).coins.find?
        (fun c => c.color = CoinColor.queen) =
      ((shotSim zeroInterp sPendWit CarromPlayerId.A ⟨0, 0, 1 / 2⟩).coins.find?
          (fun c => c.color = CoinColor.queen)).map
        (fun c =>
          { c with pocketed := false, position := (⟨1 / 2, 1 / 2⟩ : Vec2), velocity := (⟨0, 0⟩ : Vec2) }) :=
  (carrom_queen_cover zeroInterp sPendWit CarromPlayerId.A ⟨0, 0, 1 / 2⟩ rfl rfl).2.2
    rfl
    (by
      rw [shotSim_power0 zeroInterp sPendWit CarromPlayerId.A ⟨0, 0, 1 / 2⟩ rfl
        (initialCoins_rest ("ABCDEF"))]
      rfl)
    (by
      rw [shotSim_power0 zeroInterp sPendWit CarromPlayerId.A ⟨0, 0, 1 / 2⟩ rfl
        (initialCoins_rest ("ABCDEF"))]
      rfl)

/-! ## Power clamp (claim C10) -/

lemma clamp01_nonneg (q : ℚ) : 0 ≤ clamp01 q := le_max_left _ _

lemma clamp01_le_one (q : ℚ) : clamp01 q ≤ 1 :=
  max_le (by norm_num) (min_le_left _ _)

lemma clamp01_idem (q : ℚ) : clamp01 (clamp01 q) = clamp01 q := by
  rw [clamp01]
  rw [min_eq_right (clamp01_le_one q), max_eq_right (clamp01_nonneg q)]

lemma strikerSpeed_clamp (p : ℚ) : strikerSpeed (clamp01 p) = strikerSpeed p := by
  rw [strikerSpeed, strikerSpeed, clamp01_idem]

/-- Claim C10: the power is clamped into the unit interval before the
power-to-speed scaling, so any shot behaves exactly like the same shot
with clamped power, and the striker speed always lies in the interval
from 0 to 1.8. -/
theorem carrom_power_clamped (I : MathInterp) (s : CarromBoardState) (me : CarromPlayerId)
    (payload : CarromShotPayload) :
    carromShot I s me payload =
      carromShot I s me ⟨payload.angle, clamp01 payload.power, payload.baselineX⟩ ∧
    0 ≤ strikerSpeed payload.power ∧ strikerSpeed payload.power ≤ 9 / 5 := by
  refine ⟨?_, ?_, ?_⟩
  · have hs : shotSim I s me ⟨payload.angle, clamp01 payload.power, payload.baselineX⟩ =
        shotSim I s me payload := by
      simp only [shotSim, strikerSpeed_clamp]
    rw [carromShot, carromShot, hs]
  · exact mul_nonneg (by norm_num) (clamp01_nonneg _)
  · have := clamp01_le_one payload.power
    rw [strikerSpeed]
    nlinarith [clamp01_nonneg payload.power]

/-! ## Room teardown on disconnect (claim C5) -/

inductive GameKey
  | chess
  | tictactoe
  | connect4
deriving DecidableEq, Repr

def mapDelete {α : Type} (m : String → Option α) (k : String) : String → Option α :=
  fun x => if x = k then none else m x

def mapSet {α : Type} (m : String → Option α) (k : String) (v : α) : String → Option α :=
  fun x => if x = k then some v else m x

/-- The in-memory registries of the connect4 revision. -/
structure RegistryC4 (Pos : Type) where
  roomPlayers : String → Option (List RoomPlayer)
  chessGames : String → Option Pos
  tttGames : String → Option TttState
  c4Games : String → Option C4State
  roomGames : String → Option GameKey

/-- disconnect handler of the connect4 revision: when the room empties,
every per-room game state and the game selection are deleted. -/
def disconnectC4 {Pos : Type} (reg : RegistryC4 Pos) (rc sid : String) : RegistryC4 Pos :=
  if rc ≠ "" ∧ (reg.roomPlayers rc).isSome = true then
    let current := (reg.roomPlayers rc).getD []
    let updated := current.filter (fun p => p.id ≠ sid)
    if updated = [] then
      { reg with
        roomPlayers := mapDelete reg.roomPlayers rc,
        chessGames := mapDelete reg.chessGames rc,
        tttGames := mapDelete reg.tttGames rc,
        c4Games := mapDelete reg.c4Games rc,
        roomGames := mapDelete reg.roomGames rc }
    else { reg with roomPlayers := mapSet reg.roomPlayers rc updated }
  else reg

/-- The in-memory registries of the carrom revision. -/
structure RegistryCarrom (Pos : Type) where
  roomPlayers : String → Option (List RoomPlayer)
  chessGames : String → Option Pos
  tttGames : String → Option TttState
  carromGames : String → Option CarromBoardState

/-- disconnect handler of the carrom revision: only the participant list
is removed; every game map is left untouched. -/
def disconnectCarrom {Pos : Type} (reg : RegistryCarrom Pos) (rc sid : String) :
    RegistryCarrom Pos :=
  if rc ≠ "" ∧ (reg.roomPlayers rc).isSome = true then
    let current := (reg.roomPlayers rc).getD []
    let updated := current.filter (fun p => p.id ≠ sid)
    if updated = [] then { reg with roomPlayers := mapDelete reg.roomPlayers rc }
    else { reg with roomPlayers := mapSet reg.roomPlayers rc updated }
  else reg

/-- Amended claim C5: in the connect4 revision, a disconnect that empties
the room's participant list removes the chess, tic-tac-toe and connect4
states and the game selection for that room code.  (The carrom revision
does not: see the counterexample.) -/
theorem disconnect_full_teardown_c4rev {Pos : Type} (reg : RegistryC4 Pos) (rc sid : String)
    (hrc : rc ≠ "") (l : List RoomPlayer) (hl : reg.roomPlayers rc = some l)
    (hempty : l.filter (fun p => p.id ≠ sid) = []) :
    (disconnectC4 reg rc sid).roomPlayers rc = none ∧
    (disconnectC4 reg rc sid).chessGames rc = none ∧
    (disconnectC4 reg rc sid).tttGames rc = none ∧
    (disconnectC4 reg rc sid).c4Games rc = none ∧
    (disconnectC4 reg rc sid).roomGames rc = none := by
  have hcond : rc ≠ "" ∧ (reg.roomPlayers rc).isSome = true := ⟨hrc, by rw [hl]; rfl⟩
  rw [disconnectC4, if_pos hcond]
  simp only [hl, Option.getD_some, hempty, if_pos rfl]
  refine ⟨?_, ?_, ?_, ?_, ?_⟩ <;> simp [mapDelete]

/-- A one-player room with live chess and game-selection state. -/
def regC4wit : RegistryC4 Nat :=
  { roomPlayers := fun k =>
      if k = "ABCDEF" then some [⟨"s1", "alice", "alice", some ChessColor.w, none⟩] else none,
    chessGames := fun k => if k = "ABCDEF" then some 0 else none,
    tttGames := fun _ => none,
    c4Games := fun _ => none,
    roomGames := fun k => if k = "ABCDEF" then some GameKey.chess else none }

/-- Witness for the amended C5: the last player disconnects and every
map entry for the room is gone. -/
theorem disconnect_full_teardown_c4rev_witness :
    (disconnectC4 regC4wit ("ABCDEF") ("s1")).roomPlayers ("ABCDEF") = none ∧
    (disconnectC4 regC4wit ("ABCDEF") ("s1")).chessGames ("ABCDEF") = none ∧
    (disconnectC4 regC4wit ("ABCDEF") ("s1")).tttGames ("ABCDEF") = none ∧
    (disconnectC4 regC4wit ("ABCDEF") ("s1")).c4Games ("ABCDEF") = none ∧
    (disconnectC4 regC4wit ("ABCDEF") ("s1")).roomGames ("ABCDEF") = none :=
  disconnect_full_teardown_c4rev regC4wit ("ABCDEF") ("s1") (by decide)
    [⟨("s1"), ("alice"), ("alice"), some ChessColor.w, none⟩] rfl (by decide)

/-- A one-player room of the carrom revision holding a live carrom state. -/
def regCarromLeak : RegistryCarrom Nat :=
  { roomPlayers := fun k =>
      if k = "ABCDEF" then some [⟨"s1", "alice", "alice", some ChessColor.w, none⟩] else none,
    chessGames := fun _ => none,
    tttGames := fun _ => none,
    carromGames := fun k =>
      if k = "ABCDEF" then some (initialCarromState ("ABCDEF") ("alice") ("bob")) else none }

/-- Counterexample to C5 as stated: in the carrom revision, after the
disconnect that empties the room, the carrom game state entry is still
present - the registry holds game state for a room with no participants. -/
theorem disconnect_leaves_carrom_state :
    (disconnectCarrom regCarromLeak ("ABCDEF") ("s1")).roomPlayers ("ABCDEF") = none ∧
    ((disconnectCarrom regCarromLeak ("ABCDEF") ("s1")).carromGames ("ABCDEF")).isSome = true := by
  constructor
  · rfl
  · rfl

/-! ## chess_move rejection (claim C7) -/

structure ChessMovePayload where
  fromSq : String
  toSq : String
  promotion : Option String
deriving DecidableEq, Repr

inductive ChessEmit
  | invalidToRequester
  | broadcastPosition
deriving DecidableEq, Repr

/-- The external rule engine boundary: side to move and a move function
that either advances the position or rejects (a thrown exception and a
null return are both rejections). -/
structure ChessEngine (Pos : Type) where
  turn : Pos → ChessColor
  move : Pos → ChessMovePayload → Option Pos

/-- The chess_move handler on a room whose position is g: sender colour
lookup, turn gating, engine call with default promotion q, and the emit
(to the requester only on rejection, broadcast on success). -/
def chessMoveHandler {Pos : Type} (E : ChessEngine Pos) (players : List RoomPlayer)
    (sid : String) (g : Pos) (payload : ChessMovePayload) : Pos × ChessEmit :=
  let me := players.find? (fun p => p.id = sid)
  let myColor := me.bind (fun p => p.color)
  match myColor with
  | none => (g, ChessEmit.invalidToRequester)
  | some c =>
    if c ≠ E.turn g then (g, ChessEmit.invalidToRequester)
    else
      match E.move g { payload with promotion := some (payload.promotion.getD ("q")) } with
      | none => (g, ChessEmit.invalidToRequester)
      | some g1 => (g1, ChessEmit.broadcastPosition)

/-- Claim C7: a rejected chess_move (sender without colour, not the
sender's turn, or engine refusal/exception) leaves the room's position
unchanged and emits the rejection to the requester only. -/
theorem chess_move_rejected_no_mutation {Pos : Type} (E : ChessEngine Pos)
    (players : List RoomPlayer) (sid : String) (g : Pos) (payload : ChessMovePayload)
    (hrej : (players.find? (fun p => p.id = sid)).bind (fun p => p.color) = none ∨
      (∃ c, (players.find? (fun p => p.id = sid)).bind (fun p => p.color) = some c ∧
        c ≠ E.turn g) ∨
      E.move g { payload with promotion := some (payload.promotion.getD ("q")) } = none) :
    chessMoveHandler E players sid g payload = (g, ChessEmit.invalidToRequester) := by
  simp only [chessMoveHandler]
  rcases hcol : (players.find? (fun p => p.id = sid)).bind (fun p => p.color) with _ | c
  · rw [hcol]
  · rw [hcol]
    dsimp only
    rcases hrej with h | ⟨c1, hc1, hne⟩ | hmove
    · rw [hcol] at h
      exact Option.noConfusion h
    · rw [hcol] at hc1
      obtain rfl := Option.some_injective _ hc1
      rw [if_pos hne]
    · by_cases hturn : c ≠ E.turn g
      · rw [if_pos hturn]
      · rw [if_neg hturn, hmove]

/-- An engine that rejects every move. -/
def chessEngineWit : ChessEngine Nat := ⟨fun _ => ChessColor.w, fun _ _ => none⟩

/-- Witness for C7: a sender with no seat is rejected without mutation. -/
theorem chess_move_rejected_no_mutation_witness :
    chessMoveHandler chessEngineWit [] ("s1") 0 ⟨("e2"), ("e4"), none⟩ =
      (0, ChessEmit.invalidToRequester) :=
  chess_move_rejected_no_mutation chessEngineWit [] ("s1") 0 ⟨("e2"), ("e4"), none⟩ (Or.inl rfl)

end FunTime
